import Mathlib

/-!
# ris-live-example: a shallow embedding of `ris.go`

The program is one Go file: a websocket client that subscribes to the RIS Live
feed, decodes every frame as JSON and prints a summary line.  This development
embeds the pure parts of `receiveHandler` and `main` (string rendering, JSON
encoding and decoding of the program's own struct types, the two loops as
functions over event lists) and states the properties of the specification
over that embedding.

Conventions.

* A Go `string` / `[]byte` is a list of bytes (`GoString`), each byte a `Nat`.
  `len(s)` is the length of the list and `s[:n]` is `List.take n`.
* Output is a list of `Output` events in program order.  Calls whose operands
  are all strings are rendered to their text; calls that print a struct or an
  error with the default verb keep their operands.
* Library functions (`fmt`, `strings`, `strconv`, `reflect`, `encoding/json`,
  `unicode/utf8`, `gorilla/websocket`) are modelled after their Go sources at
  the generality the program uses them; each definition says what it leaves out.
* Functions that loop over input of unknown length carry a fuel argument and
  are called with enough fuel for their input; for the JSON reader this is
  `parse_progress` and `parseJSON_fuel` below.
-/

namespace RisLive

/-! ## Go strings and `unicode/utf8` -/

/-- A Go string (or byte slice): the list of its bytes. -/
abbrev GoString := List Nat

/-- The bytes of a literal made of ASCII characters. -/
def ascii (s : String) : GoString := s.toList.map Char.toNat

/-- The constant `utf8.RuneError`, U+FFFD. -/
def RuneError : Nat := 0xFFFD

/-- The function `utf8.DecodeRune`: the first rune of `p` and its width in
bytes; `(RuneError, 1)` for an invalid encoding, `(RuneError, 0)` for empty
input.  The case analysis on the first byte is the table `first` of the Go
source, the bounds on the second byte its `acceptRanges`. -/
def decodeRune : GoString → Nat × Nat
  | [] => (RuneError, 0)
  | p0 :: rest =>
    if p0 < 0x80 then (p0, 1)
    else if p0 < 0xC2 then (RuneError, 1)
    else if p0 < 0xE0 then
      match rest with
      | b1 :: _ =>
        if 0x80 ≤ b1 ∧ b1 ≤ 0xBF then (p0 % 32 * 64 + b1 % 64, 2) else (RuneError, 1)
      | [] => (RuneError, 1)
    else if p0 < 0xF0 then
      let lo := if p0 = 0xE0 then 0xA0 else 0x80
      let hi := if p0 = 0xED then 0x9F else 0xBF
      match rest with
      | b1 :: b2 :: _ =>
        if lo ≤ b1 ∧ b1 ≤ hi ∧ 0x80 ≤ b2 ∧ b2 ≤ 0xBF then
          (p0 % 16 * 4096 + b1 % 64 * 64 + b2 % 64, 3)
        else (RuneError, 1)
      | _ => (RuneError, 1)
    else if p0 < 0xF5 then
      let lo := if p0 = 0xF0 then 0x90 else 0x80
      let hi := if p0 = 0xF4 then 0x8F else 0xBF
      match rest with
      | b1 :: b2 :: b3 :: _ =>
        if lo ≤ b1 ∧ b1 ≤ hi ∧ 0x80 ≤ b2 ∧ b2 ≤ 0xBF ∧ 0x80 ≤ b3 ∧ b3 ≤ 0xBF then
          (p0 % 8 * 262144 + b1 % 64 * 4096 + b2 % 64 * 64 + b3 % 64, 4)
        else (RuneError, 1)
      | _ => (RuneError, 1)
    else (RuneError, 1)

/-- The function `utf8.AppendRune` on an empty buffer: the UTF-8 encoding of
`r`; surrogates and values above U+10FFFF encode as U+FFFD. -/
def encodeRune (r : Nat) : GoString :=
  if r < 0x80 then [r]
  else if r < 0x800 then [0xC0 + r / 64, 0x80 + r % 64]
  else if (0xD800 ≤ r ∧ r ≤ 0xDFFF) ∨ 0x10FFFF < r then [0xEF, 0xBF, 0xBD]
  else if r < 0x10000 then [0xE0 + r / 4096, 0x80 + r / 64 % 64, 0x80 + r % 64]
  else [0xF0 + r / 262144, 0x80 + r / 4096 % 64, 0x80 + r / 64 % 64, 0x80 + r % 64]

/-- The loop of `utf8.Valid`, with fuel. -/
def utf8ValidAux : Nat → GoString → Bool
  | _, [] => true
  | 0, _ :: _ => false
  | fuel + 1, b :: rest =>
    if b < 0x80 then utf8ValidAux fuel rest
    else
      let size := (decodeRune (b :: rest)).2
      if size = 1 then false else utf8ValidAux fuel (rest.drop (size - 1))

/-- The function `utf8.Valid`: `s` consists of valid UTF-8 encodings only. -/
def utf8Valid (s : GoString) : Bool := utf8ValidAux s.length s

/-! ## `strings` -/

/-- The Go expression `strings.Join(elems, sep)`. -/
def stringsJoin : List GoString → GoString → GoString
  | [], _ => []
  | [a], _ => a
  | a :: b :: rest, sep => a ++ sep ++ stringsJoin (b :: rest) sep

/-- The function `strings.Index`: the offset of the first instance of `sep`
in `s`, `none` for Go's `-1`. -/
def stringsIndex : GoString → GoString → Option Nat
  | [], sep => if sep = [] then some 0 else none
  | c :: rest, sep =>
    if sep.isPrefixOf (c :: rest) then some 0
    else (stringsIndex rest sep).map (· + 1)

/-- The loop of `strings.genSplit` for a separator that is not empty: cut at
each instance of `sep` found by `strings.Index`, left to right.  The Go loop
is bounded by `strings.Count(s, sep)`; the fuel plays that part, and the loop
also ends when `Index` finds nothing. -/
def splitLoop : Nat → GoString → GoString → List GoString
  | 0, s, _ => [s]
  | fuel + 1, s, sep =>
    match stringsIndex s sep with
    | none => [s]
    | some m => s.take m :: splitLoop fuel (s.drop (m + sep.length)) sep

/-- The function `strings.explode` without a limit: one string per UTF-8
sequence, an invalid byte becoming the encoding of U+FFFD. -/
def explode : Nat → GoString → List GoString
  | _, [] => []
  | 0, _ :: _ => []
  | fuel + 1, b :: rest =>
    let (r, size) := decodeRune (b :: rest)
    if size = 1 ∧ r = RuneError then encodeRune RuneError :: explode fuel rest
    else (b :: rest).take size :: explode fuel (rest.drop (size - 1))

/-- The function `strings.Split(s, sep)`. -/
def stringsSplit (s sep : GoString) : List GoString :=
  if sep = [] then explode s.length s else splitLoop s.length s sep

/-- The function `strings.TrimLeft` for a cutset of ASCII bytes. -/
def stringsTrimLeft (s cutset : GoString) : GoString :=
  s.dropWhile (fun c => decide (c ∈ cutset))

/-- The function `strings.TrimRight` for a cutset of ASCII bytes. -/
def stringsTrimRight (s cutset : GoString) : GoString :=
  (s.reverse.dropWhile (fun c => decide (c ∈ cutset))).reverse

/-- The function `strings.Trim(s, cutset)` for a cutset of ASCII bytes (Go's
`trimLeftASCII(trimRightASCII(s, as), as)`; a cutset with a byte of 0x80 or
more makes Go trim by runes, which is not modelled). -/
def stringsTrim (s cutset : GoString) : GoString :=
  stringsTrimLeft (stringsTrimRight s cutset) cutset

/-! ## `strconv` -/

/-- The decimal digits of `n`, most significant first, pushed in front of
`acc`; the last digit is produced first, as in `strconv.formatBits`. -/
def formatNatAux : Nat → Nat → GoString → GoString
  | 0, _, acc => acc
  | fuel + 1, n, acc =>
    if n < 10 then (48 + n) :: acc
    else formatNatAux fuel (n / 10) ((48 + n % 10) :: acc)

/-- The function `strconv.FormatUint(n, 10)`. -/
def formatNat (n : Nat) : GoString := formatNatAux (n + 1) n []

/-- The function `strconv.FormatInt(i, 10)`, which is also how `fmt` prints an
`int` under `%v`. -/
def formatInt (i : Int) : GoString :=
  if i < 0 then 45 :: formatNat i.natAbs else formatNat i.natAbs

/-- A finite `float64` value `(-1)^neg * mant * 2^exp`.  NaN and the
infinities have no representation: `encoding/json` never stores them (a JSON
number that overflows is a decoding error and leaves the field as it was). -/
structure Float64 where
  neg : Bool
  mant : Nat
  exp : Int
deriving DecidableEq, Repr

/-- The quotient `num / den` rounded to the nearest integer, ties to even. -/
def roundHalfEven (num den : Nat) : Nat :=
  let q := num / den
  let r := num % den
  if 2 * r < den then q
  else if den < 2 * r then q + 1
  else if q % 2 = 0 then q else q + 1

/-- The last `width` decimal digits of `n`, with leading zeros. -/
def padDigits : Nat → Nat → GoString
  | 0, _ => []
  | width + 1, n => padDigits width (n / 10) ++ [48 + n % 10]

/-- The magnitude of `x` times `10^prec`, rounded to the nearest integer,
ties to even (the rounding of `strconv`'s arbitrary-precision decimal). -/
def scaledMagnitude (x : Float64) (prec : Nat) : Nat :=
  match x.exp with
  | Int.ofNat e => x.mant * 2 ^ e * 10 ^ prec
  | Int.negSucc e => roundHalfEven (x.mant * 10 ^ prec) (2 ^ (e + 1))

/-- The function `strconv.FormatFloat(x, 'f', prec, 64)` on a finite value: an
optional minus sign (from the sign bit, also for a zero), the integer part,
and for `prec > 0` a point and exactly `prec` digits. -/
def formatFloatF (x : Float64) (prec : Nat) : GoString :=
  let q := scaledMagnitude x prec
  (if x.neg then [45] else []) ++ formatNat (q / 10 ^ prec) ++
    (if prec = 0 then [] else 46 :: padDigits prec (q % 10 ^ prec))

/-- A run of ASCII digits read as a decimal number; `none` when `s` is empty
or has another byte. -/
def parseDigits (s : GoString) : Option Nat :=
  if s = [] ∨ s.any (fun c => decide (c < 48 ∨ 57 < c)) then none
  else some (s.foldl (fun acc c => acc * 10 + (c - 48)) 0)

/-- The function `strconv.ParseInt(s, 10, 64)`: an optional sign and decimal
digits, within the range of `int64`; `none` for an error. -/
def parseInt64 (s : GoString) : Option Int :=
  let (neg, ds) : Bool × GoString :=
    match s with
    | 45 :: r => (true, r)
    | 43 :: r => (false, r)
    | _ => (false, s)
  match parseDigits ds with
  | none => none
  | some n =>
    if neg then (if n ≤ 2 ^ 63 then some (-(n : Int)) else none)
    else if n < 2 ^ 63 then some (n : Int) else none

/-- The number of bits of `n` (`bits.Len`), with fuel. -/
def bitLenAux : Nat → Nat → Nat
  | 0, _ => 0
  | fuel + 1, n => if n = 0 then 0 else 1 + bitLenAux fuel (n / 2)

/-- The number of bits of `n`: 0 for 0, otherwise `⌊log₂ n⌋ + 1`. -/
def bitLen (n : Nat) : Nat := bitLenAux n n

/-- The fraction `num / den` times `2^(-k)`, as a fraction. -/
def scaleFraction (num den : Nat) (k : Int) : Nat × Nat :=
  match k with
  | Int.ofNat e => (num, den * 2 ^ e)
  | Int.negSucc e => (num * 2 ^ (e + 1), den)

/-- The `float64` nearest to `num / den` with sign `neg`, ties to even;
`none` when the rounded magnitude is `2^1024` or more (overflow).  Below the
normal range the spacing is `2^(-1074)` (subnormals, then zero). -/
def roundToFloat64 (neg : Bool) (num den : Nat) : Option Float64 :=
  if num = 0 then some ⟨neg, 0, 0⟩
  else
    let e0 : Int := (bitLen num : Int) - (bitLen den : Int)
    let (n0, d0) := scaleFraction num den e0
    let e : Int := if d0 ≤ n0 then e0 else e0 - 1
    let q : Int := max (e - 52) (-1074)
    let (n1, d1) := scaleFraction num den q
    let m := roundHalfEven n1 d1
    let (m1, q1) : Nat × Int := if m = 2 ^ 53 then (2 ^ 52, q + 1) else (m, q)
    if 971 < q1 then none else some ⟨neg, m1, q1⟩

/-- The function `strconv.ParseFloat(s, 64)` on a literal of the JSON number
grammar (`-? digits (. digits)? ([eE] [+-]? digits)?`): the correctly rounded
value, `none` for a range error or a literal outside that grammar.  Go caps an
exponent of more than four digits at 10000, which gives the same result. -/
def parseFloat64 (s : GoString) : Option Float64 :=
  let (neg, s1) : Bool × GoString :=
    match s with
    | 45 :: r => (true, r)
    | _ => (false, s)
  let (ip, s2) := s1.span (fun c => decide (48 ≤ c ∧ c ≤ 57))
  let (fp, s3) : GoString × GoString :=
    match s2 with
    | 46 :: r => r.span (fun c => decide (48 ≤ c ∧ c ≤ 57))
    | _ => ([], s2)
  let ex : Option Int :=
    match s3 with
    | [] => some 0
    | c :: r =>
      if c = 101 ∨ c = 69 then
        match r with
        | 45 :: ds => (parseDigits ds).map (fun n => -(n : Int))
        | 43 :: ds => (parseDigits ds).map (fun n => (n : Int))
        | ds => (parseDigits ds).map (fun n => (n : Int))
      else none
  match parseDigits (ip ++ fp), ex with
  | some d, some e =>
    match e - (fp.length : Int) with
    | Int.ofNat k => roundToFloat64 neg (d * 10 ^ k) 1
    | Int.negSucc k => roundToFloat64 neg d (10 ^ (k + 1))
  | _, _ => none

end RisLive

namespace RisLive

/-! ## `reflect.StructTag` and the field names of `encoding/json` -/

/-- A field of a Go struct type as declared in the source: its name and the
text of its tag (what stands between the backquotes). -/
structure StructField where
  Name : GoString
  Tag : GoString
deriving DecidableEq, Repr

/-- The inner loop of `StructTag.Lookup` that scans a quoted value: the input
starts after the opening quote; the result is the text up to the closing
quote (a backslash protects the next byte) and what follows the quote. -/
def scanQuoted : GoString → Option (GoString × GoString)
  | [] => none
  | 34 :: rest => some ([], rest)
  | 92 :: c :: rest => (scanQuoted rest).map (fun (v, r) => (92 :: c :: v, r))
  | [92] => none
  | c :: rest => (scanQuoted rest).map (fun (v, r) => (c :: v, r))

/-- The loop of `reflect.StructTag.Lookup`: a tag is a sequence of
`key:"value"` pairs separated by blanks, and the first syntax error ends the
search.  `strconv.Unquote` is the identity on a value without backslash or
newline that is valid UTF-8; values with escapes are not modelled (no value). -/
def tagLookupAux : Nat → GoString → GoString → Option GoString
  | 0, _, _ => none
  | fuel + 1, tag, key =>
    let tag1 := tag.dropWhile (fun c => decide (c = 32))
    if tag1 = [] then none
    else
      let (name, after) :=
        tag1.span (fun c => decide (32 < c ∧ c ≠ 58 ∧ c ≠ 34 ∧ c ≠ 127))
      match after with
      | 58 :: 34 :: tag2 =>
        if name = [] then none
        else
          match scanQuoted tag2 with
          | none => none
          | some (value, tag3) =>
            if key = name then
              if value.all (fun c => decide (c ≠ 92 ∧ c ≠ 10)) ∧ utf8Valid value then some value
              else none
            else tagLookupAux fuel tag3 key
      | _ => none

/-- The method `reflect.StructTag.Lookup(key)`. -/
def tagLookup (tag key : GoString) : Option GoString :=
  tagLookupAux (tag.length + 1) tag key

/-- The method `reflect.StructTag.Get(key)`: the empty string when there is
no such key. -/
def tagGet (tag key : GoString) : GoString := (tagLookup tag key).getD []

/-- The function `isValidTag` of `encoding/json` for ASCII names: not empty,
and made of letters, digits and the punctuation Go lists (a byte of 0x80 or
more, for which Go consults the Unicode tables, is refused here). -/
def isValidTag (s : GoString) : Bool :=
  s ≠ [] ∧ s.all (fun c =>
    decide ((48 ≤ c ∧ c ≤ 57) ∨ (65 ≤ c ∧ c ≤ 90) ∨ (97 ≤ c ∧ c ≤ 122) ∨
      c ∈ ascii "!#$%&()*+-./:;<=>?@[]^_\x7b|\x7d~ "))

/-- What `encoding/json` derives from a struct field: the key and whether the
option `omitempty` is set. -/
structure JsonField where
  key : GoString
  omitEmpty : Bool
deriving DecidableEq, Repr

/-- The part of `typeFields` of `encoding/json` that names an exported field:
`none` when the tag is `-`; otherwise the name before the first comma of the
`json` tag value if it is a valid name, else the Go field name. -/
def jsonField (f : StructField) : Option JsonField :=
  let tag := tagGet f.Tag (ascii "json")
  if tag = ascii "-" then none
  else
    let parts := splitLoop tag.length tag (ascii ",")
    let name := parts.headD []
    some ⟨if isValidTag name then name else f.Name,
      decide (ascii "omitempty" ∈ parts.tail)⟩

/-- The function `foldName` of `encoding/json` on ASCII: lower-case letters
become upper-case.  (Go also folds a few letters outside ASCII into ASCII
ones, such as U+017F and U+212A; such keys are compared unfolded here.) -/
def foldName (s : GoString) : GoString :=
  s.map (fun c => if 97 ≤ c ∧ c ≤ 122 then c - 32 else c)

/-! ## `encoding/json`: encoding -/

/-- One digit of the table `hex` ("0123456789abcdef"). -/
def hexDigit (n : Nat) : Nat := if n < 10 then 48 + n else 87 + n

/-- The table `htmlSafeSet`: the ASCII bytes a JSON string holds unescaped
when HTML escaping is on (the default of `json.Marshal`). -/
def htmlSafe (b : Nat) : Bool :=
  decide (0x20 ≤ b ∧ b < 0x80 ∧ b ≠ 34 ∧ b ≠ 92 ∧ b ≠ 60 ∧ b ≠ 62 ∧ b ≠ 38)

/-- What `appendString` writes for one ASCII byte. -/
def escapeByte (b : Nat) : GoString :=
  if htmlSafe b then [b]
  else if b = 92 ∨ b = 34 then [92, b]
  else if b = 8 then [92, 98]
  else if b = 12 then [92, 102]
  else if b = 10 then [92, 110]
  else if b = 13 then [92, 114]
  else if b = 9 then [92, 116]
  else [92, 117, 48, 48, hexDigit (b / 16), hexDigit (b % 16)]

/-- The loop of `appendString` of `encoding/json` (Go 1.22): what stands
between the quotes.  Invalid UTF-8 becomes the escape of U+FFFD, and U+2028
and U+2029 are escaped. -/
def appendStringBody : Nat → GoString → GoString
  | _, [] => []
  | 0, _ :: _ => []
  | fuel + 1, b :: rest =>
    if b < 0x80 then escapeByte b ++ appendStringBody fuel rest
    else
      let (c, size) := decodeRune (b :: rest)
      if c = RuneError ∧ size = 1 then
        ascii "\\ufffd" ++ appendStringBody fuel rest
      else if c = 0x2028 ∨ c = 0x2029 then
        ascii "\\u202" ++ [hexDigit (c % 16)] ++ appendStringBody fuel (rest.drop (size - 1))
      else (b :: rest).take size ++ appendStringBody fuel (rest.drop (size - 1))

/-- The JSON encoding of a Go string (`appendString` with HTML escaping). -/
def jsonQuote (s : GoString) : GoString :=
  34 :: appendStringBody s.length s ++ [34]

/-- A struct field handed to the struct encoder: its declaration, whether its
value is empty in the sense of `isEmptyValue`, and the encoding of its value. -/
structure FieldValue where
  field : StructField
  isEmpty : Bool
  encoded : GoString

/-- One member of an encoded struct, `"key":value`; `none` when the field is
left out (tag `-`, or `omitempty` on an empty value). -/
def encodeMember (fv : FieldValue) : Option GoString :=
  match jsonField fv.field with
  | none => none
  | some jf =>
    if jf.omitEmpty ∧ fv.isEmpty then none
    else some (jsonQuote jf.key ++ ascii ":" ++ fv.encoded)

/-- The struct encoder of `encoding/json`: the members in declaration order,
separated by commas, in braces. -/
def encodeStruct (fs : List FieldValue) : GoString :=
  ascii "\x7b" ++ stringsJoin (fs.filterMap encodeMember) (ascii ",") ++ ascii "\x7d"

/-! ## `encoding/json`: the scanner -/

/-- A JSON value as the decoder reads it: strings unquoted, numbers as their
literal text. -/
inductive JValue where
  | null : JValue
  | bool (b : Bool) : JValue
  | number (literal : GoString) : JValue
  | string (s : GoString) : JValue
  | array (elems : List JValue) : JValue
  | object (members : List (GoString × JValue)) : JValue

/-- Why reading a JSON text gave no value. -/
inductive ParseFail where
  | syntaxError : ParseFail
  | outOfFuel : ParseFail
deriving DecidableEq, Repr

/-- The value of a hexadecimal digit. -/
def hexVal (c : Nat) : Option Nat :=
  if 48 ≤ c ∧ c ≤ 57 then some (c - 48)
  else if 97 ≤ c ∧ c ≤ 102 then some (c - 87)
  else if 65 ≤ c ∧ c ≤ 70 then some (c - 55)
  else none

/-- The function `getu4`: the rune of a `\uXXXX` escape at the start of `s`. -/
def getu4 : GoString → Option Nat
  | 92 :: 117 :: a :: b :: c :: d :: _ =>
    match hexVal a, hexVal b, hexVal c, hexVal d with
    | some a, some b, some c, some d => some (((a * 16 + b) * 16 + c) * 16 + d)
    | _, _, _, _ => none
  | _ => none

/-- Skip JSON white space (blank, tab, carriage return, line feed). -/
def skipSpace : GoString → GoString
  | [] => []
  | c :: rest => if c = 32 ∨ c = 9 ∨ c = 13 ∨ c = 10 then skipSpace rest else c :: rest

/-- Read a string literal whose opening quote has been consumed: the unquoted
string and the input after the closing quote.  This is the string states of
the scanner (a control byte, an unknown escape or the end of input is a
syntax error) together with `unquoteBytes` (escapes are replaced, surrogate
pairs are joined, a lone surrogate and invalid UTF-8 become U+FFFD). -/
def scanString : Nat → GoString → Except ParseFail (GoString × GoString)
  | 0, _ => .error .outOfFuel
  | _ + 1, [] => .error .syntaxError
  | fuel + 1, c :: rest =>
    if c = 34 then .ok ([], rest)
    else if c = 92 then
      match rest with
      | [] => .error .syntaxError
      | e :: rest1 =>
        let simple (b : Nat) : Except ParseFail (GoString × GoString) :=
          (scanString fuel rest1).map (fun (s, r) => (b :: s, r))
        if e = 34 ∨ e = 92 ∨ e = 47 then simple e
        else if e = 98 then simple 8
        else if e = 102 then simple 12
        else if e = 110 then simple 10
        else if e = 114 then simple 13
        else if e = 116 then simple 9
        else if e = 117 then
          match getu4 (c :: rest) with
          | none => .error .syntaxError
          | some rr =>
            let rest2 := rest1.drop 4
            if 0xD800 ≤ rr ∧ rr < 0xE000 then
              match getu4 rest2 with
              | some rr1 =>
                if rr < 0xDC00 ∧ 0xDC00 ≤ rr1 ∧ rr1 < 0xE000 then
                  (scanString fuel (rest2.drop 6)).map (fun (s, r) =>
                    (encodeRune ((rr - 0xD800) * 1024 + (rr1 - 0xDC00) + 0x10000) ++ s, r))
                else
                  (scanString fuel rest2).map (fun (s, r) => (encodeRune RuneError ++ s, r))
              | none =>
                (scanString fuel rest2).map (fun (s, r) => (encodeRune RuneError ++ s, r))
            else (scanString fuel rest2).map (fun (s, r) => (encodeRune rr ++ s, r))
        else .error .syntaxError
    else if c < 32 then .error .syntaxError
    else if c < 128 then (scanString fuel rest).map (fun (s, r) => (c :: s, r))
    else
      let (rr, size) := decodeRune (c :: rest)
      (scanString fuel (rest.drop (size - 1))).map (fun (s, r) => (encodeRune rr ++ s, r))

/-- An ASCII digit. -/
def isDigit (c : Nat) : Bool := decide (48 ≤ c ∧ c ≤ 57)

/-- The integer part of a number literal (scanner states `state0`, `state1`):
a single `0`, or a digit from 1 to 9 followed by digits. -/
def scanIntPart : GoString → Option (GoString × GoString)
  | [] => none
  | c :: r =>
    if c = 48 then some ([48], r)
    else if 49 ≤ c ∧ c ≤ 57 then some (c :: (r.span isDigit).1, (r.span isDigit).2)
    else none

/-- The optional fraction of a number literal (scanner states `stateDot`,
`stateDot0`): a point followed by at least one digit. -/
def scanFracPart : GoString → Option (GoString × GoString)
  | 46 :: r =>
    if (r.span isDigit).1 = [] then none
    else some (46 :: (r.span isDigit).1, (r.span isDigit).2)
  | s => some ([], s)

/-- An optional sign in front of the digits of an exponent. -/
def takeSign : GoString → GoString × GoString
  | [] => ([], [])
  | x :: r => if x = 43 ∨ x = 45 then ([x], r) else ([], x :: r)

/-- The optional exponent of a number literal (scanner states `stateE`,
`stateESign`, `stateE0`): `e` or `E`, an optional sign, at least one digit. -/
def scanExpPart : GoString → Option (GoString × GoString)
  | [] => some ([], [])
  | c :: r =>
    if c = 101 ∨ c = 69 then
      if ((takeSign r).2.span isDigit).1 = [] then none
      else
        some (c :: (takeSign r).1 ++ ((takeSign r).2.span isDigit).1,
          ((takeSign r).2.span isDigit).2)
    else some ([], c :: r)

/-- An optional minus sign in front of a number literal (scanner state
`stateNeg`). -/
def takeMinus : GoString → GoString × GoString
  | 45 :: r => ([45], r)
  | s => ([], s)

/-- Read a number literal (the number states of the scanner): the literal
text and the input after it; `none` for a syntax error. -/
def scanNumber (s : GoString) : Option (GoString × GoString) :=
  match scanIntPart (takeMinus s).2 with
  | none => none
  | some (ip, s2) =>
    match scanFracPart s2 with
    | none => none
    | some (fp, s3) =>
      match scanExpPart s3 with
      | none => none
      | some (ep, s4) => some ((takeMinus s).1 ++ ip ++ fp ++ ep, s4)

/-- The nesting limit of the scanner (`maxNestingDepth`). -/
def maxNestingDepth : Nat := 10000

mutual
/-- Read one JSON value at the start of `s` (after white space): the value and
the rest of the input.  `depth` counts the arrays and objects around it. -/
def parseValue : Nat → Nat → GoString → Except ParseFail (JValue × GoString)
  | 0, _, _ => .error .outOfFuel
  | fuel + 1, depth, s =>
    match skipSpace s with
    | [] => .error .syntaxError
    | c :: rest =>
      if c = 123 then
        if maxNestingDepth < depth + 1 then .error .syntaxError
        else
          match skipSpace rest with
          | 125 :: rest1 => .ok (.object [], rest1)
          | rest1 =>
            match parseMembers fuel (depth + 1) rest1 with
            | .ok (ms, r) => .ok (.object ms, r)
            | .error e => .error e
      else if c = 91 then
        if maxNestingDepth < depth + 1 then .error .syntaxError
        else
          match skipSpace rest with
          | 93 :: rest1 => .ok (.array [], rest1)
          | rest1 =>
            match parseElements fuel (depth + 1) rest1 with
            | .ok (vs, r) => .ok (.array vs, r)
            | .error e => .error e
      else if c = 34 then
        match scanString (rest.length + 1) rest with
        | .ok (str, r) => .ok (.string str, r)
        | .error e => .error e
      else if c = 45 ∨ isDigit c then
        match scanNumber (c :: rest) with
        | some (literal, r) => .ok (.number literal, r)
        | none => .error .syntaxError
      else if (ascii "true").isPrefixOf (c :: rest) then .ok (.bool true, rest.drop 3)
      else if (ascii "false").isPrefixOf (c :: rest) then .ok (.bool false, rest.drop 4)
      else if (ascii "null").isPrefixOf (c :: rest) then .ok (.null, rest.drop 3)
      else .error .syntaxError
/-- Read the members of an object, from the first key to the closing brace. -/
def parseMembers : Nat → Nat → GoString →
    Except ParseFail (List (GoString × JValue) × GoString)
  | 0, _, _ => .error .outOfFuel
  | fuel + 1, depth, s =>
    match skipSpace s with
    | 34 :: rest =>
      match scanString (rest.length + 1) rest with
      | .error e => .error e
      | .ok (key, r1) =>
        match skipSpace r1 with
        | 58 :: r2 =>
          match parseValue fuel depth r2 with
          | .error e => .error e
          | .ok (v, r3) =>
            match skipSpace r3 with
            | 44 :: r4 =>
              match parseMembers fuel depth r4 with
              | .ok (ms, r5) => .ok ((key, v) :: ms, r5)
              | .error e => .error e
            | 125 :: r4 => .ok ([(key, v)], r4)
            | _ => .error .syntaxError
        | _ => .error .syntaxError
    | _ => .error .syntaxError
/-- Read the elements of an array, from the first one to the closing bracket. -/
def parseElements : Nat → Nat → GoString → Except ParseFail (List JValue × GoString)
  | 0, _, _ => .error .outOfFuel
  | fuel + 1, depth, s =>
    match parseValue fuel depth s with
    | .error e => .error e
    | .ok (v, r1) =>
      match skipSpace r1 with
      | 44 :: r2 =>
        match parseElements fuel depth r2 with
        | .ok (vs, r3) => .ok (v :: vs, r3)
        | .error e => .error e
      | 93 :: r2 => .ok ([v], r2)
      | _ => .error .syntaxError
end

/-- The function `checkValid` together with the reading of the value: a JSON
text is one value with nothing but white space after it.  The fuel is enough
for every text: each level of nesting takes two units and one byte. -/
def parseJSON (text : GoString) : Except ParseFail JValue :=
  match parseValue (2 * text.length + 2) 0 text with
  | .error e => .error e
  | .ok (v, rest) => if skipSpace rest = [] then .ok v else .error .syntaxError

end RisLive

namespace RisLive

/-! ## `encoding/json`: decoding into Go values -/

/-- The errors `json.Unmarshal` returns: a `*json.SyntaxError` (nothing was
decoded) or the first `*json.UnmarshalTypeError` (decoding went on after it). -/
inductive JsonError where
  | syntaxError : JsonError
  | unmarshalType : JsonError
deriving DecidableEq, Repr

/-- Decode into a Go `string`: a JSON string is stored, `null` leaves the
value alone, anything else is a type error. -/
def decodeString (v : JValue) (cur : GoString) : GoString × Option JsonError :=
  match v with
  | .string s => (s, none)
  | .null => (cur, none)
  | _ => (cur, some .unmarshalType)

/-- Decode into a Go `int` (64 bits): a number literal that `strconv.ParseInt`
accepts is stored; a literal with a fraction or exponent, or out of range, is
a type error. -/
def decodeInt (v : JValue) (cur : Int) : Int × Option JsonError :=
  match v with
  | .number literal =>
    match parseInt64 literal with
    | some n => (n, none)
    | none => (cur, some .unmarshalType)
  | .null => (cur, none)
  | _ => (cur, some .unmarshalType)

/-- Decode into a Go `float64`. -/
def decodeFloat64 (v : JValue) (cur : Float64) : Float64 × Option JsonError :=
  match v with
  | .number literal =>
    match parseFloat64 literal with
    | some x => (x, none)
    | none => (cur, some .unmarshalType)
  | .null => (cur, none)
  | _ => (cur, some .unmarshalType)

/-- The element loop of the array decoder for a slice: element `i` of the JSON
array is decoded into element `i` of the slice, which starts from the value
already there when the slice is that long and from the zero value otherwise.
(Go reuses the backing array, so a slot between the old length and capacity
can start from a stale value; capacities are not modelled.) -/
def decodeElems {α : Type} (dec : JValue → α → α × Option JsonError) (zero : α) :
    List JValue → List α → List α × Option JsonError
  | [], _ => ([], none)
  | v :: vs, cur =>
    let (x, e1) := dec v (cur.headD zero)
    let (xs, e2) := decodeElems dec zero vs cur.tail
    (x :: xs, e1 <|> e2)

/-- Decode into a Go slice: an array replaces the elements, `null` gives the
nil slice, anything else is a type error.  The nil slice and the empty slice
are both the empty list. -/
def decodeSlice {α : Type} (dec : JValue → α → α × Option JsonError) (zero : α)
    (v : JValue) (cur : List α) : List α × Option JsonError :=
  match v with
  | .array elems => decodeElems dec zero elems cur
  | .null => ([], none)
  | _ => (cur, some .unmarshalType)

/-- The decoder of a struct type: each field with the function that decodes a
JSON value into it. -/
abbrev FieldTable (σ : Type) := List (StructField × (JValue → σ → σ × Option JsonError))

/-- The field a JSON key selects: the field whose key is equal to it, else the
first field whose key is equal to it up to case. -/
def findField {σ : Type} (table : FieldTable σ) (key : GoString) :
    Option (JValue → σ → σ × Option JsonError) :=
  let named := table.filterMap (fun fd => (jsonField fd.1).map (fun jf => (jf.key, fd.2)))
  match named.find? (fun kd => decide (kd.1 = key)) with
  | some kd => some kd.2
  | none => (named.find? (fun kd => decide (foldName kd.1 = foldName key))).map (·.2)

/-- The member loop of the object decoder for a struct: members are taken in
the order of the text, a key that selects no field is skipped, and the first
type error is kept while decoding goes on. -/
def decodeMembers {σ : Type} (table : FieldTable σ) :
    List (GoString × JValue) → σ → σ × Option JsonError
  | [], s => (s, none)
  | (key, v) :: ms, s =>
    match findField table key with
    | none => decodeMembers table ms s
    | some dec =>
      let (s1, e1) := dec v s
      let (s2, e2) := decodeMembers table ms s1
      (s2, e1 <|> e2)

/-- Decode into a Go struct: an object sets the fields its keys select,
`null` leaves the struct alone, anything else is a type error. -/
def decodeStruct {σ : Type} (table : FieldTable σ) (v : JValue) (s : σ) :
    σ × Option JsonError :=
  match v with
  | .object ms => decodeMembers table ms s
  | .null => (s, none)
  | _ => (s, some .unmarshalType)

/-! ## The types of `ris.go` -/

/-- Go struct `RisCommunity` (declared, never used). -/
structure RisCommunity where
  parts : List Int
deriving DecidableEq, Repr

/-- Go struct `RisAnnouncement`. -/
structure RisAnnouncement where
  NextHop : GoString
  Prefixes : List GoString
deriving DecidableEq, Repr

/-- Go struct `RisWithdrawal`: no fields. -/
structure RisWithdrawal where
deriving DecidableEq, Repr

/-- Go struct `RisLiveMessageData`; the field `Type` is written `Typ`. -/
structure RisLiveMessageData where
  Timestamp : Float64
  Peer : GoString
  PeerAsn : GoString
  Id : GoString
  Host : GoString
  Typ : GoString
  Path : List Int
  Community : List (List Int)
  Origin : GoString
  Med : Int
  Announcements : List RisAnnouncement
  Withdrawals : List RisWithdrawal
deriving DecidableEq, Repr

/-- Go struct `RisLiveMessage`; the field `Type` is written `Typ`. -/
structure RisLiveMessage where
  Typ : GoString
  Data : RisLiveMessageData
deriving DecidableEq, Repr

/-- Go struct `RisMessageData`. -/
structure RisMessageData where
  Host : GoString
  Prefix : GoString
deriving DecidableEq, Repr

/-- Go struct `RisMessage`; the pointer `Data` is `none` when nil. -/
structure RisMessage where
  Typ : GoString
  Data : Option RisMessageData
deriving DecidableEq, Repr

/-- The zero value of `RisAnnouncement`. -/
def RisAnnouncement.zero : RisAnnouncement := ⟨[], []⟩

/-- The zero value of `RisLiveMessageData`. -/
def RisLiveMessageData.zero : RisLiveMessageData :=
  ⟨⟨false, 0, 0⟩, [], [], [], [], [], [], [], [], 0, [], []⟩

/-- The zero value of `RisLiveMessage` (`var message RisLiveMessage`). -/
def RisLiveMessage.zero : RisLiveMessage := ⟨[], RisLiveMessageData.zero⟩

/-- The zero value of `RisMessageData`. -/
def RisMessageData.zero : RisMessageData := ⟨[], []⟩

/-- The zero value of `RisMessage`. -/
def RisMessage.zero : RisMessage := ⟨[], none⟩

/-- The fields of `RisAnnouncement` with their tags as written in the source. -/
def RisAnnouncement.table : FieldTable RisAnnouncement :=
  [ (⟨ascii "NextHop", ascii "json:next_hop"⟩, fun v a =>
      let (x, e) := decodeString v a.NextHop
      ({ a with NextHop := x }, e)),
    (⟨ascii "Prefixes", ascii "json:prefixes"⟩, fun v a =>
      let (x, e) := decodeSlice decodeString [] v a.Prefixes
      ({ a with Prefixes := x }, e)) ]

/-- The fields of `RisWithdrawal`: none. -/
def RisWithdrawal.table : FieldTable RisWithdrawal := []

/-- The fields of `RisLiveMessageData` with their tags as written in the
source. -/
def RisLiveMessageData.table : FieldTable RisLiveMessageData :=
  [ (⟨ascii "Timestamp", ascii "json:timestamp"⟩, fun v d =>
      let (x, e) := decodeFloat64 v d.Timestamp
      ({ d with Timestamp := x }, e)),
    (⟨ascii "Peer", ascii "json:peer"⟩, fun v d =>
      let (x, e) := decodeString v d.Peer
      ({ d with Peer := x }, e)),
    (⟨ascii "PeerAsn", ascii "json:\"peer_asn\""⟩, fun v d =>
      let (x, e) := decodeString v d.PeerAsn
      ({ d with PeerAsn := x }, e)),
    (⟨ascii "Id", ascii "json:id"⟩, fun v d =>
      let (x, e) := decodeString v d.Id
      ({ d with Id := x }, e)),
    (⟨ascii "Host", ascii "json:host"⟩, fun v d =>
      let (x, e) := decodeString v d.Host
      ({ d with Host := x }, e)),
    (⟨ascii "Type", ascii "json:type"⟩, fun v d =>
      let (x, e) := decodeString v d.Typ
      ({ d with Typ := x }, e)),
    (⟨ascii "Path", ascii "json:path"⟩, fun v d =>
      let (x, e) := decodeSlice decodeInt 0 v d.Path
      ({ d with Path := x }, e)),
    (⟨ascii "Community", ascii "json:community"⟩, fun v d =>
      let (x, e) := decodeSlice (decodeSlice decodeInt 0) [] v d.Community
      ({ d with Community := x }, e)),
    (⟨ascii "Origin", ascii "json:origin"⟩, fun v d =>
      let (x, e) := decodeString v d.Origin
      ({ d with Origin := x }, e)),
    (⟨ascii "Med", ascii "json:med"⟩, fun v d =>
      let (x, e) := decodeInt v d.Med
      ({ d with Med := x }, e)),
    (⟨ascii "Announcements", ascii "json:announcements"⟩, fun v d =>
      let (x, e) :=
        decodeSlice (decodeStruct RisAnnouncement.table) RisAnnouncement.zero v d.Announcements
      ({ d with Announcements := x }, e)),
    (⟨ascii "Withdrawals", ascii "json:withdrawals"⟩, fun v d =>
      let (x, e) := decodeSlice (decodeStruct RisWithdrawal.table) ⟨⟩ v d.Withdrawals
      ({ d with Withdrawals := x }, e)) ]

/-- The fields of `RisLiveMessage` with their tags. -/
def RisLiveMessage.table : FieldTable RisLiveMessage :=
  [ (⟨ascii "Type", ascii "json:\"type\""⟩, fun v m =>
      let (x, e) := decodeString v m.Typ
      ({ m with Typ := x }, e)),
    (⟨ascii "Data", ascii "json:\"data\""⟩, fun v m =>
      let (x, e) := decodeStruct RisLiveMessageData.table v m.Data
      ({ m with Data := x }, e)) ]

/-- The declaration of field `RisMessageData.Host`. -/
def RisMessageData.fieldHost : StructField :=
  ⟨ascii "Host", ascii "json:\"host,omitempty\""⟩

/-- The declaration of field `RisMessageData.Prefix`. -/
def RisMessageData.fieldPrefix : StructField :=
  ⟨ascii "Prefix", ascii "json:\"prefix,omitempty\""⟩

/-- The declaration of field `RisMessage.Type`. -/
def RisMessage.fieldType : StructField := ⟨ascii "Type", ascii "json:\"type\""⟩

/-- The declaration of field `RisMessage.Data`. -/
def RisMessage.fieldData : StructField := ⟨ascii "Data", ascii "json:\"data\""⟩

/-- The fields of `RisMessageData` with their decoders. -/
def RisMessageData.table : FieldTable RisMessageData :=
  [ (RisMessageData.fieldHost, fun v d =>
      let (x, e) := decodeString v d.Host
      ({ d with Host := x }, e)),
    (RisMessageData.fieldPrefix, fun v d =>
      let (x, e) := decodeString v d.Prefix
      ({ d with Prefix := x }, e)) ]

/-- Decode into the pointer field `Data *RisMessageData`: `null` sets the
pointer to nil; for any other value a nil pointer is first pointed at a new
zero struct, into which the value is then decoded. -/
def decodeDataPointer (v : JValue) (cur : Option RisMessageData) :
    Option RisMessageData × Option JsonError :=
  match v with
  | .null => (none, none)
  | _ =>
    let (d, e) := decodeStruct RisMessageData.table v (cur.getD RisMessageData.zero)
    (some d, e)

/-- The fields of `RisMessage` with their decoders. -/
def RisMessage.table : FieldTable RisMessage :=
  [ (RisMessage.fieldType, fun v m =>
      let (x, e) := decodeString v m.Typ
      ({ m with Typ := x }, e)),
    (RisMessage.fieldData, fun v m =>
      let (x, e) := decodeDataPointer v m.Data
      ({ m with Data := x }, e)) ]

/-- The call `json.Unmarshal(msg, &message)` for a `RisLiveMessage`: the value
of `message` afterwards and the error returned.  A text that is not valid
JSON is a syntax error and leaves `message` as it was.  `none`: the reader
ran out of fuel. -/
def unmarshalRisLiveMessage (msg : GoString) (message : RisLiveMessage) :
    Option (RisLiveMessage × Option JsonError) :=
  match parseJSON msg with
  | .error .outOfFuel => none
  | .error .syntaxError => some (message, some .syntaxError)
  | .ok v => some (decodeStruct RisLiveMessage.table v message)

/-- The call `json.Unmarshal(data, &m)` for a `RisMessage`. -/
def unmarshalRisMessage (data : GoString) (m : RisMessage) :
    Option (RisMessage × Option JsonError) :=
  match parseJSON data with
  | .error .outOfFuel => none
  | .error .syntaxError => some (m, some .syntaxError)
  | .ok v => some (decodeStruct RisMessage.table v m)

/-- The JSON encoding of a `RisMessageData`. -/
def marshalRisMessageData (d : RisMessageData) : GoString :=
  encodeStruct
    [ ⟨RisMessageData.fieldHost, d.Host.isEmpty, jsonQuote d.Host⟩,
      ⟨RisMessageData.fieldPrefix, d.Prefix.isEmpty, jsonQuote d.Prefix⟩ ]

/-- The call `json.Marshal(m)` for a `RisMessage`: a nil pointer encodes as
`null`.  The error result is left out: encoding strings and structs of
strings cannot fail. -/
def marshalRisMessage (m : RisMessage) : GoString :=
  encodeStruct
    [ ⟨RisMessage.fieldType, m.Typ.isEmpty, jsonQuote m.Typ⟩,
      ⟨RisMessage.fieldData, m.Data.isNone,
        match m.Data with
        | none => ascii "null"
        | some d => marshalRisMessageData d⟩ ]

/-! ## `fmt` renderings -/

/-- The rendering of a `[]string` under the verb `%s`: the elements separated
by blanks, in square brackets. -/
def fmtStringSlice (xs : List GoString) : GoString :=
  ascii "[" ++ stringsJoin xs (ascii " ") ++ ascii "]"

/-- The rendering of one `RisAnnouncement` under `%s`: its two fields
separated by a blank, in braces. -/
def fmtAnnouncement (a : RisAnnouncement) : GoString :=
  ascii "\x7b" ++ a.NextHop ++ ascii " " ++ fmtStringSlice a.Prefixes ++ ascii "\x7d"

/-- The value of `fmt.Sprintf("%s", payload.Announcements)`. -/
def fmtAnnouncements (as : List RisAnnouncement) : GoString :=
  ascii "[" ++ stringsJoin (as.map fmtAnnouncement) (ascii " ") ++ ascii "]"

/-- The value of `fmt.Sprint(payload.Path)` for a `[]int`. -/
def fmtIntSlice (xs : List Int) : GoString :=
  ascii "[" ++ stringsJoin (xs.map formatInt) (ascii " ") ++ ascii "]"

/-! ## `receiveHandler` -/

/-- An error of the connection, by its text. -/
abbrev IOError := GoString

/-- An operand of a `log.Println` call, printed with the default verb. -/
inductive Operand where
  | str (s : GoString) : Operand
  | bytes (b : GoString) : Operand
  | jsonError (e : JsonError) : Operand
  | ioError (e : IOError) : Operand
  | liveMessage (m : RisLiveMessage) : Operand
  | withdrawals (w : List RisWithdrawal) : Operand
  | risMessage (m : RisMessage) : Operand
deriving DecidableEq, Repr

/-- One effect of the program, in program order.  For the calls of `log` the
date and time the logger puts in front of each line are left out. -/
inductive Output where
  /-- A call of `log.Println` with these operands. -/
  | logPrintln (args : List Operand) : Output
  /-- A call of `log.Printf`, by the formatted text. -/
  | logPrintf (text : GoString) : Output
  /-- A call of `log.Fatal` with these operands; the process exits. -/
  | logFatal (args : List Operand) : Output
  /-- Text written to standard output by `fmt.Println` or `fmt.Printf`. -/
  | stdout (text : GoString) : Output
  /-- A call of `conn.WriteMessage(messageType, data)` and the error it returned. -/
  | writeMessage (messageType : Nat) (data : GoString) (err : Option IOError) : Output
deriving DecidableEq, Repr

/-- The variable `prefixes` of `receiveHandler` when the summary line is
printed: the rendering of the announcements, cut to 44 bytes plus the marker
when it is longer than 48 bytes. -/
def prefixesField (as : List RisAnnouncement) : GoString :=
  let prefixes := fmtAnnouncements as
  if prefixes.length > 48 then prefixes.take 44 ++ ascii "...]" else prefixes

/-- The variable `path` of `receiveHandler`:
`strings.Trim(strings.Join(strings.Split(fmt.Sprint(payload.Path), " "), " "), "[]")`. -/
def pathField (path : List Int) : GoString :=
  stringsTrim (stringsJoin (stringsSplit (fmtIntSlice path) (ascii " ")) (ascii " "))
    (ascii "[]")

/-- The text of the `log.Printf` call of the `UPDATE` branch, after the
format `"%s %s collector:%s, neighbor:%s, prefixes:%s, aspath:%s\n"`. -/
def summaryLine (payload : RisLiveMessageData) : GoString :=
  formatFloatF payload.Timestamp 3 ++ ascii " " ++ payload.Typ ++
    ascii " collector:" ++ payload.Host ++ ascii ", neighbor:" ++ payload.PeerAsn ++
    ascii ", prefixes:" ++ prefixesField payload.Announcements ++
    ascii ", aspath:" ++ pathField payload.Path ++ ascii "\n"

/-- The two lines of the `err != nil` branch after `json.Unmarshal`. -/
def badParseLines (msg : GoString) (e : JsonError) : List Output :=
  [ .logPrintln [.str (ascii "Bad parse:"), .jsonError e],
    .logPrintln [.str (ascii "Original message:"), .bytes msg] ]

/-- The `if message.Type != "ris_message"` statement of the loop body. -/
def dispatchMessage (msg : GoString) (message : RisLiveMessage) : List Output :=
  if message.Typ ≠ ascii "ris_message" then
    [.logPrintln [.str (ascii "Received unhandled message:"), .liveMessage message]]
  else
    let payload := message.Data
    if payload.Typ = ascii "UPDATE" then [.logPrintf (summaryLine payload)]
    else
      [ .stdout (ascii "\n"),
        .stdout (msg ++ ascii "\n"),
        .logPrintln
          [ .str (formatFloatF payload.Timestamp 3), .str payload.Typ, .str payload.Host,
            .str payload.PeerAsn, .withdrawals payload.Withdrawals ] ]

/-- The loop body of `receiveHandler` after `json.Unmarshal` has returned
`message` and `err`: the error branch has no `continue`, so the dispatch on
`message.Type` runs in either case. -/
def afterUnmarshal (msg : GoString) (message : RisLiveMessage) (err : Option JsonError) :
    List Output :=
  (match err with
    | some e => badParseLines msg e
    | none => []) ++ dispatchMessage msg message

/-- The loop body of `receiveHandler` for a frame that was read: decode it
into a fresh `message` and go on as `afterUnmarshal`.  The loop then reads the
next frame. -/
def handleFrame (msg : GoString) : Option (List Output) :=
  (unmarshalRisLiveMessage msg RisLiveMessage.zero).map
    (fun r => afterUnmarshal msg r.1 r.2)

/-- What `connection.ReadMessage()` returns. -/
inductive ReadResult where
  | frame (msg : GoString) : ReadResult
  | failure (err : IOError) : ReadResult
deriving DecidableEq, Repr

/-- The function `receiveHandler` over the results of its reads: the output,
and whether it has returned (and so closed `done`).  When the list ends the
handler is waiting in `ReadMessage`. -/
def receiveHandler : List ReadResult → Option (List Output × Bool)
  | [] => some ([], false)
  | .failure err :: _ =>
    some ([.logPrintln [.str (ascii "Error in receive:"), .ioError err]], true)
  | .frame msg :: rest =>
    match handleFrame msg, receiveHandler rest with
    | some out, some (outs, returned) => some (out ++ outs, returned)
    | _, _ => none

/-! ## `main` -/

/-- The constant `websocket.TextMessage`. -/
def TextMessage : Nat := 1

/-- The constant `websocket.CloseMessage`. -/
def CloseMessage : Nat := 8

/-- The constant `websocket.CloseNormalClosure`. -/
def CloseNormalClosure : Nat := 1000

/-- The function `websocket.FormatCloseMessage`: the close code in two bytes,
big endian, then the text; empty for code 1005 (`CloseNoStatusReceived`). -/
def formatCloseMessage (closeCode : Nat) (text : GoString) : GoString :=
  if closeCode = 1005 then [] else [closeCode / 256 % 256, closeCode % 256] ++ text

/-- The variable `ping` of `main`. -/
def ping : RisMessage := ⟨ascii "ping", none⟩

/-- The variable `pingstr` of `main`. -/
def pingstr : GoString := marshalRisMessage ping

/-- A subscribe message for a host and a prefix filter:
`RisMessage{"ris_subscribe", &RisMessageData{host, pfx}}`. -/
def subscription (host pfx : GoString) : RisMessage :=
  ⟨ascii "ris_subscribe", some ⟨host, pfx⟩⟩

/-- The variable `subscription1` of `main`. -/
def subscription1 : RisMessage := subscription (ascii "") (ascii "0.0.0.0/0")

/-- The variable `out1` of `main`. -/
def out1 : GoString := marshalRisMessage subscription1

/-- What the `select` of the main loop receives.  A case carries the results
of the calls made in it: the error of `conn.WriteMessage`, and for an
interrupt whose close frame was written, which case of the inner `select`
came first (`doneFirst`: the receive from `done`; otherwise the one-second
timer). -/
inductive MainEvent where
  | timer (writeErr : Option IOError) : MainEvent
  | interrupt (writeErr : Option IOError) (doneFirst : Bool) : MainEvent
deriving DecidableEq, Repr

/-- One pass of the `for { select { ... } }` of `main`: the output, and
whether `main` returns. -/
def mainStep : MainEvent → List Output × Bool
  | .timer none => ([.writeMessage TextMessage pingstr none], false)
  | .timer (some err) =>
    ([ .writeMessage TextMessage pingstr (some err),
       .logPrintln [.str (ascii "Error during writing to websocket:"), .ioError err] ], true)
  | .interrupt writeErr doneFirst =>
    let sigint : Output :=
      .logPrintln
        [.str (ascii "Received SIGINT interrupt signal. Closing all pending connections")]
    let close : Output :=
      .writeMessage CloseMessage (formatCloseMessage CloseNormalClosure (ascii "")) writeErr
    match writeErr with
    | some err =>
      ([sigint, close,
        .logPrintln [.str (ascii "Error during closing websocket: "), .ioError err]], true)
    | none =>
      ([sigint, close,
        if doneFirst then .logPrintln [.str (ascii "Receiver channel closed, exiting")]
        else .logPrintln [.str (ascii "Timeout in closing receiving channel; exiting")]], true)

/-- The main loop over the events its `select` receives: the output, and
whether `main` has returned.  When the list ends the loop is waiting. -/
def mainLoop : List MainEvent → List Output × Bool
  | [] => ([], false)
  | ev :: rest =>
    let (out, returned) := mainStep ev
    if returned then (out, true)
    else
      let (outs, r) := mainLoop rest
      (out ++ outs, r)

/-- The function `main`, given the error of `Dial`, the error of the write of
the subscription (which `main` ignores) and the events of the loop. -/
def main (dialErr subscribeErr : Option IOError) (events : List MainEvent) :
    List Output × Bool :=
  match dialErr with
  | some err =>
    ([.logFatal [.str (ascii "Error connecting to Websocket Server:"), .ioError err]], true)
  | none =>
    let (outs, returned) := mainLoop events
    ([ .logPrintln [.str (ascii "Subscribing to: "), .risMessage subscription1],
       .writeMessage TextMessage out1 subscribeErr ] ++ outs, returned)

end RisLive

namespace RisLive

/-! ## A measure for the reader -/

/-- A result of the reader that is not a lack of fuel and that, when it is a
value, leaves fewer than `n` bytes of input. -/
def Progress {α : Type} (res : Except ParseFail (α × GoString)) (n : Nat) : Prop :=
  match res with
  | .ok (_, r) => r.length < n
  | .error e => e = .syntaxError

/-! ## Concrete inputs -/

/-- Two announcements whose `%s` rendering has 76 bytes. -/
def twoAnnouncements : List RisAnnouncement :=
  [ ⟨ascii "217.29.66.158", [ascii "1.1.249.0/24", ascii "1.1.250.0/24"]⟩,
    ⟨ascii "2001:7f8::1", [ascii "2a04:4e42::/48"]⟩ ]

/-- The example message of the comment at the head of `ris.go`, with its line
breaks and tabs. -/
def exampleFrame : GoString :=
  ascii "\x7b\n\t\"type\":\"ris_message\",\n\t\"data\": \x7b\n\t\t\"timestamp\":1695269583.730,\n\t\t\"peer\":\"217.29.66.158\",\n\t\t\"peer_asn\":\"24482\",\n\t\t\"id\":\"217.29.66.158-018ab5f0fb720005\",\n\t\t\"host\":\"rrc10.ripe.net\",\n\t\t\"type\":\"UPDATE\",\n\t\t\"path\":[24482,6939,38040,23969],\n\t\t\"community\":[[24482,2],[24482,200],[24482,12000],[24482,12040],[24482,12041],[24482,20100]],\n\t\t\"origin\":\"IGP\",\n\t\t\"med\":0,\n\t\t\"announcements\":[\x7b\"next_hop\":\"217.29.66.158\",\"prefixes\":[\"1.1.249.0/24\"]\x7d],\n\t\t\"withdrawals\":[]\n\t\x7d\n\x7d"

/-- What `json.Unmarshal` makes of `exampleFrame`: every field holds the value
of its key, except that the next hop of the announcement is empty. -/
def exampleDecoded : RisLiveMessage :=
  { Typ := ascii "ris_message",
    Data :=
      { Timestamp := ⟨false, 7110475996117074, -22⟩,
        Peer := ascii "217.29.66.158",
        PeerAsn := ascii "24482",
        Id := ascii "217.29.66.158-018ab5f0fb720005",
        Host := ascii "rrc10.ripe.net",
        Typ := ascii "UPDATE",
        Path := [24482, 6939, 38040, 23969],
        Community :=
          [[24482, 2], [24482, 200], [24482, 12000], [24482, 12040], [24482, 12041],
            [24482, 20100]],
        Origin := ascii "IGP",
        Med := 0,
        Announcements := [⟨ascii "", [ascii "1.1.249.0/24"]⟩],
        Withdrawals := [] } }

/-- A frame that is not JSON. -/
def malformedFrame : GoString := ascii "not json"

/-- A frame that is valid JSON of the `UPDATE` shape, but whose withdrawals are
strings (as RIS Live sends them), which do not fit `RisWithdrawal`. -/
def withdrawalFrame : GoString :=
  ascii "\x7b\"type\":\"ris_message\",\"data\":\x7b\"timestamp\":1.5,\"peer_asn\":\"24482\",\"host\":\"rrc10\",\"type\":\"UPDATE\",\"path\":[1,2],\"withdrawals\":[\"1.1.249.0/24\"]\x7d\x7d"

/-- The reply of the server to a ping. -/
def pongFrame : GoString := ascii "\x7b\"type\":\"pong\",\"data\":null\x7d"

/-- The message `pongFrame` decodes to. -/
def pongDecoded : RisLiveMessage := { RisLiveMessage.zero with Typ := ascii "pong" }

/-- The members of the data object of a subscribe message as the reader
returns them: `host` only when the host is not empty, then `prefix`. -/
def dataMembers (h p : GoString) : List (GoString × JValue) :=
  (if h = [] then [] else [(ascii "host", JValue.string h)]) ++
    [(ascii "prefix", JValue.string p)]

/-- The first line of the interrupt case of `main`. -/
def sigintLine : Output :=
  .logPrintln [.str (ascii "Received SIGINT interrupt signal. Closing all pending connections")]

/-- The line of the `<-done` case of the inner `select`. -/
def closedLine : Output := .logPrintln [.str (ascii "Receiver channel closed, exiting")]

/-- The line of the timer case of the inner `select`. -/
def timeoutLine : Output :=
  .logPrintln [.str (ascii "Timeout in closing receiving channel; exiting")]

end RisLive

/-! ## Theorems -/

namespace RisLive

set_option maxRecDepth 100000

theorem stringsIndex_split (sep : GoString) :
    ∀ (s : GoString) (m : Nat), stringsIndex s sep = some m →
      s = s.take m ++ sep ++ s.drop (m + sep.length) := by
  intro s
  induction s with
  | nil =>
    intro m h
    simp only [stringsIndex] at h
    split at h
    · subst_vars; simp
    · cases h
  | cons c rest ih =>
    intro m h
    simp only [stringsIndex] at h
    split at h
    · rename_i hp
      cases h
      have hp2 : sep <+: c :: rest := List.isPrefixOf_iff_prefix.mp hp
      obtain ⟨t, ht⟩ := hp2
      rw [← ht]
      simp
    · cases hi : stringsIndex rest sep with
      | none => rw [hi] at h; cases h
      | some k =>
        rw [hi] at h
        simp only [Option.map_some'] at h
        cases h
        have := ih k hi
        simp only [List.take_succ_cons, List.cons_append]
        rw [Nat.add_right_comm, List.drop_succ_cons]
        simpa using this

theorem splitLoop_ne_nil (fuel : Nat) (s sep : GoString) : splitLoop fuel s sep ≠ [] := by
  cases fuel with
  | zero => simp [splitLoop]
  | succ n =>
    simp only [splitLoop]
    split <;> simp

theorem stringsJoin_cons (a : GoString) (l : List GoString) (sep : GoString) (h : l ≠ []) :
    stringsJoin (a :: l) sep = a ++ sep ++ stringsJoin l sep := by
  cases l with
  | nil => exact absurd rfl h
  | cons b t => rfl

theorem stringsJoin_splitLoop (sep : GoString) :
    ∀ (fuel : Nat) (s : GoString), stringsJoin (splitLoop fuel s sep) sep = s := by
  intro fuel
  induction fuel with
  | zero => intro s; rfl
  | succ n ih =>
    intro s
    simp only [splitLoop]
    cases hi : stringsIndex s sep with
    | none => rfl
    | some m =>
      simp only
      rw [stringsJoin_cons _ _ _ (splitLoop_ne_nil _ _ _), ih]
      exact (stringsIndex_split sep s m hi).symm

theorem formatNatAux_digits (fuel : Nat) :
    ∀ (n : Nat) (acc : GoString), (∀ c ∈ acc, 48 ≤ c ∧ c ≤ 57) →
      ∀ c ∈ formatNatAux fuel n acc, 48 ≤ c ∧ c ≤ 57 := by
  induction fuel with
  | zero => intro n acc h; simpa [formatNatAux] using h
  | succ k ih =>
    intro n acc h
    simp only [formatNatAux]
    split
    · intro c hc
      rcases List.mem_cons.mp hc with rfl | hc
      · omega
      · exact h c hc
    · apply ih
      intro c hc
      rcases List.mem_cons.mp hc with rfl | hc
      · omega
      · exact h c hc

theorem formatNat_digits (n : Nat) : ∀ c ∈ formatNat n, 48 ≤ c ∧ c ≤ 57 :=
  formatNatAux_digits _ _ _ (by simp)

theorem formatNatAux_ne_nil (fuel : Nat) :
    ∀ (n : Nat) (acc : GoString), formatNatAux (fuel + 1) n acc ≠ [] := by
  induction fuel with
  | zero =>
    intro n acc
    simp only [formatNatAux]
    split <;> simp
  | succ k ih =>
    intro n acc
    rw [formatNatAux]
    split
    · simp
    · exact ih _ _

theorem formatNat_ne_nil (n : Nat) : formatNat n ≠ [] := formatNatAux_ne_nil _ _ _

theorem formatInt_bytes (i : Int) : ∀ c ∈ formatInt i, c ≠ 91 ∧ c ≠ 93 ∧ c ≠ 32 := by
  intro c hc
  unfold formatInt at hc
  split at hc
  · rcases List.mem_cons.mp hc with rfl | hc
    · omega
    · have := formatNat_digits _ c hc; omega
  · have := formatNat_digits _ c hc; omega

theorem stringsJoin_bytes (P : Nat → Prop) (sep : GoString) (hsep : ∀ c ∈ sep, P c) :
    ∀ (l : List GoString), (∀ x ∈ l, ∀ c ∈ x, P c) → ∀ c ∈ stringsJoin l sep, P c := by
  intro l
  induction l with
  | nil => intro _ c hc; simp [stringsJoin] at hc
  | cons a t ih =>
    intro h c hc
    cases t with
    | nil => exact h a (by simp) c (by simpa [stringsJoin] using hc)
    | cons b t2 =>
      simp only [stringsJoin, List.mem_append] at hc
      rcases hc with (hc | hc) | hc
      · exact h a (by simp) c hc
      · exact hsep c hc
      · exact ih (fun x hx => h x (List.mem_cons_of_mem _ hx)) c hc

theorem stringsTrim_brackets (body : GoString) (h : ∀ c ∈ body, c ≠ 91 ∧ c ≠ 93) :
    stringsTrim (ascii "[" ++ body ++ ascii "]") (ascii "[]") = body := by
  have h1 : ascii "[" = [91] := by decide
  have h2 : ascii "]" = [93] := by decide
  have h3 : ascii "[]" = [91, 93] := by decide
  rw [h1, h2, h3]
  simp only [stringsTrim, stringsTrimLeft, stringsTrimRight]
  rcases List.eq_nil_or_concat body with rfl | ⟨front, z, rfl⟩
  · decide
  · simp only [List.concat_eq_append] at h ⊢
    have hz := h z (by simp)
    have e1 : (List.dropWhile (fun c => decide (c ∈ [91, 93]))
        ([91] ++ (front ++ [z]) ++ [93]).reverse) = ([91] ++ (front ++ [z])).reverse := by
      simp only [List.reverse_append, List.reverse_cons, List.reverse_nil, List.nil_append,
        List.singleton_append, List.cons_append]
      rw [List.dropWhile_cons_of_pos (by simp)]
      rw [List.dropWhile_cons_of_neg (by simp; omega)]
    rw [e1, List.reverse_reverse]
    simp only [List.singleton_append]
    rw [List.dropWhile_cons_of_pos (by simp)]
    cases front with
    | nil =>
      simp only [List.nil_append]
      rw [List.dropWhile_cons_of_neg (by simp; omega)]
    | cons x t =>
      have := h x (by simp)
      simp only [List.cons_append]
      rw [List.dropWhile_cons_of_neg (by simp; omega)]

theorem ascii_space_ne_nil : ascii " " ≠ [] := by decide

/-- C1: when the `%s` rendering of the announcement list is longer than 48
bytes, the prefix field of the summary line is the first 44 bytes of that
rendering followed by the four bytes `...]`, 48 bytes in all. -/
theorem prefixesField_truncated (as : List RisAnnouncement)
    (h : 48 < (fmtAnnouncements as).length) :
    prefixesField as = (fmtAnnouncements as).take 44 ++ ascii "...]" ∧
      (ascii "...]").length = 4 ∧ (prefixesField as).length = 48 := by
  have hm : (ascii "...]").length = 4 := by decide
  have hp : prefixesField as = (fmtAnnouncements as).take 44 ++ ascii "...]" := by
    simp only [prefixesField]
    rw [if_pos h]
  refine ⟨hp, hm, ?_⟩
  rw [hp, List.length_append, List.length_take, hm]
  omega

theorem prefixesField_truncated_witness :
    48 < (fmtAnnouncements twoAnnouncements).length ∧
      prefixesField twoAnnouncements =
        ascii "[\x7b217.29.66.158 [1.1.249.0/24 1.1.250.0/24]\x7d...]" := by
  refine ⟨by decide, ?_⟩
  rw [(prefixesField_truncated twoAnnouncements (by decide)).1]
  decide

/-- C2: the AS path string of the summary line is the decimal renderings of
the elements of the path, in order, joined by single blanks, without brackets
or commas; the empty path gives the empty string, and the path of the example
frame gives `24482 6939 38040 23969`. -/
theorem pathField_eq (path : List Int) :
    pathField path = stringsJoin (path.map formatInt) (ascii " ") ∧
      (∀ c ∈ pathField path, c ≠ 91 ∧ c ≠ 93 ∧ c ≠ 44) ∧
      pathField [] = [] ∧
      pathField [24482, 6939, 38040, 23969] = ascii "24482 6939 38040 23969" := by
  have key : ∀ p : List Int, pathField p = stringsJoin (p.map formatInt) (ascii " ") := by
    intro p
    unfold pathField stringsSplit
    rw [if_neg ascii_space_ne_nil, stringsJoin_splitLoop]
    unfold fmtIntSlice
    apply stringsTrim_brackets
    intro c hc
    have := stringsJoin_bytes (fun c => c ≠ 91 ∧ c ≠ 93) (ascii " ") (by decide)
      (p.map formatInt) (by
        intro x hx c hc
        obtain ⟨i, _, rfl⟩ := List.mem_map.mp hx
        have := formatInt_bytes i c hc
        exact ⟨this.1, this.2.1⟩) c hc
    exact this
  refine ⟨key path, ?_, ?_, ?_⟩
  · rw [key]
    apply stringsJoin_bytes (fun c => c ≠ 91 ∧ c ≠ 93 ∧ c ≠ 44) (ascii " ") (by decide)
    intro x hx c hc
    obtain ⟨i, _, rfl⟩ := List.mem_map.mp hx
    unfold formatInt at hc
    split at hc
    · rcases List.mem_cons.mp hc with rfl | hc
      · omega
      · have := formatNat_digits _ c hc; omega
    · have := formatNat_digits _ c hc; omega
  · rw [key]; rfl
  · rw [key]; decide

theorem jsonField_host : jsonField RisMessageData.fieldHost = some ⟨ascii "host", true⟩ := by
  decide

theorem jsonField_prefix :
    jsonField RisMessageData.fieldPrefix = some ⟨ascii "prefix", true⟩ := by decide

theorem jsonField_type : jsonField RisMessage.fieldType = some ⟨ascii "type", false⟩ := by
  decide

theorem jsonField_data : jsonField RisMessage.fieldData = some ⟨ascii "data", false⟩ := by
  decide

theorem marshal_subscription_text (h p : GoString) :
    marshalRisMessage (subscription h p) =
      ascii "\x7b\"type\":\"ris_subscribe\",\"data\":\x7b" ++
        stringsJoin
          ((if h = [] then [] else [ascii "\"host\":" ++ jsonQuote h]) ++
            (if p = [] then [] else [ascii "\"prefix\":" ++ jsonQuote p]))
          (ascii ",") ++
        ascii "\x7d\x7d" := by
  have q1 : jsonQuote (ascii "type") = ascii "\"type\"" := by decide
  have q2 : jsonQuote (ascii "data") = ascii "\"data\"" := by decide
  have q3 : jsonQuote (ascii "host") = ascii "\"host\"" := by decide
  have q4 : jsonQuote (ascii "prefix") = ascii "\"prefix\"" := by decide
  have q5 : jsonQuote (ascii "ris_subscribe") = ascii "\"ris_subscribe\"" := by decide
  simp only [marshalRisMessage, marshalRisMessageData, subscription, encodeStruct,
    List.filterMap_cons, List.filterMap_nil, encodeMember, jsonField_host, jsonField_prefix,
    jsonField_type, jsonField_data, q1, q2, q3, q4, q5, List.isEmpty_iff, Option.isNone_some]
  by_cases hh : h = [] <;> by_cases hp : p = [] <;>
    simp [hh, hp, stringsJoin, ascii]

/-- C4 (as the code has it): for every host `h` and prefix filter `p` the
serialized subscribe message is `{"type":"ris_subscribe","data":{...}}`, where
the data object holds `"host":` with the JSON string of `h` only when `h` is
not empty and `"prefix":` with the JSON string of `p` only when `p` is not
empty, in this order (both fields are `omitempty`); the message the program
sends for its own filter is `{"type":"ris_subscribe","data":{"prefix":"0.0.0.0/0"}}`. -/
theorem marshal_subscription (h p : GoString) :
    marshalRisMessage (subscription h p) =
        ascii "\x7b\"type\":\"ris_subscribe\",\"data\":\x7b" ++
          stringsJoin
            ((if h = [] then [] else [ascii "\"host\":" ++ jsonQuote h]) ++
              (if p = [] then [] else [ascii "\"prefix\":" ++ jsonQuote p]))
            (ascii ",") ++
          ascii "\x7d\x7d" ∧
      out1 = ascii "\x7b\"type\":\"ris_subscribe\",\"data\":\x7b\"prefix\":\"0.0.0.0/0\"\x7d\x7d" :=
  ⟨marshal_subscription_text h p, by decide⟩

theorem padDigits_three (n : Nat) :
    padDigits 3 n = [48 + n / 10 / 10 % 10, 48 + n / 10 % 10, 48 + n % 10] := by
  simp [padDigits]

/-- C8: for a `ris_message` envelope whose inner type is `UPDATE`, the loop
body prints one summary line, which consists of the timestamp with exactly
three digits after the decimal point, the word `UPDATE`, the collector host
and the peer ASN, in this order, followed by the prefix field and the AS
path. -/
theorem summaryLine_update (msg : GoString) (message : RisLiveMessage)
    (h1 : message.Typ = ascii "ris_message") (h2 : message.Data.Typ = ascii "UPDATE") :
    ∃ sign ip d1 d2 d3,
      (sign = [] ∨ sign = ascii "-") ∧ ip ≠ [] ∧
      (∀ c ∈ ip ++ [d1, d2, d3], 48 ≤ c ∧ c ≤ 57) ∧
      formatFloatF message.Data.Timestamp 3 = sign ++ ip ++ ascii "." ++ [d1, d2, d3] ∧
      afterUnmarshal msg message none =
        [.logPrintf (formatFloatF message.Data.Timestamp 3 ++ ascii " " ++ ascii "UPDATE" ++
          ascii " collector:" ++ message.Data.Host ++ ascii ", neighbor:" ++
          message.Data.PeerAsn ++ ascii ", prefixes:" ++
          prefixesField message.Data.Announcements ++ ascii ", aspath:" ++
          pathField message.Data.Path ++ ascii "\n")] := by
  let q := scaledMagnitude message.Data.Timestamp 3
  refine ⟨if message.Data.Timestamp.neg then [45] else [], formatNat (q / 10 ^ 3),
    48 + q % 10 ^ 3 / 10 / 10 % 10, 48 + q % 10 ^ 3 / 10 % 10, 48 + q % 10 ^ 3 % 10,
    ?_, formatNat_ne_nil _, ?_, ?_, ?_⟩
  · by_cases hn : message.Data.Timestamp.neg
    · right; rw [if_pos hn]; decide
    · left; rw [if_neg hn]
  · intro c hc
    rcases List.mem_append.mp hc with hc | hc
    · exact formatNat_digits _ c hc
    · simp only [List.mem_cons, List.mem_singleton, List.not_mem_nil, or_false] at hc
      rcases hc with rfl | rfl | rfl <;> omega
  · have hd : ascii "." = [46] := by decide
    simp only [formatFloatF, padDigits_three, hd]
    simp
  · simp only [afterUnmarshal, dispatchMessage, List.nil_append, h1, h2, summaryLine]
    simp

theorem summaryLine_update_witness :
    afterUnmarshal exampleFrame exampleDecoded none =
      [.logPrintf (ascii "1695269583.730 UPDATE collector:rrc10.ripe.net, neighbor:24482, prefixes:[\x7b [1.1.249.0/24]\x7d], aspath:24482 6939 38040 23969\n")] := by
  obtain ⟨_, _, _, _, _, _, _, _, _, h⟩ :=
    summaryLine_update exampleFrame exampleDecoded (by decide) (by decide)
  rw [h]
  decide

/-- C9: for a frame that decodes without error into an envelope whose type is
not `ris_message`, the loop body prints the single line `Received unhandled
message:` with the envelope, and nothing else. -/
theorem unhandled_message (msg : GoString) (message : RisLiveMessage)
    (hdec : unmarshalRisLiveMessage msg RisLiveMessage.zero = some (message, none))
    (hty : message.Typ ≠ ascii "ris_message") :
    handleFrame msg =
      some [.logPrintln [.str (ascii "Received unhandled message:"), .liveMessage message]] := by
  simp [handleFrame, hdec, afterUnmarshal, dispatchMessage, hty]

theorem unhandled_message_witness :
    handleFrame pongFrame =
      some [.logPrintln [.str (ascii "Received unhandled message:"), .liveMessage pongDecoded]] :=
  unhandled_message pongFrame pongDecoded (by decide) (by decide)

/-- C6 (the code departs from the claim): a frame that is not JSON makes the
loop body print the parse error line, the original bytes, and then also the
`Received unhandled message:` line for the untouched zero message; a frame
that fails with a type error in one field prints the two error lines and then
the `UPDATE` summary line. -/
theorem malformed_frame_falls_through :
    handleFrame malformedFrame =
        some [ .logPrintln [.str (ascii "Bad parse:"), .jsonError .syntaxError],
               .logPrintln [.str (ascii "Original message:"), .bytes malformedFrame],
               .logPrintln [.str (ascii "Received unhandled message:"),
                 .liveMessage RisLiveMessage.zero] ] ∧
      handleFrame withdrawalFrame =
        some [ .logPrintln [.str (ascii "Bad parse:"), .jsonError .unmarshalType],
               .logPrintln [.str (ascii "Original message:"), .bytes withdrawalFrame],
               .logPrintf (ascii "1.500 UPDATE collector:rrc10, neighbor:24482, prefixes:[], aspath:1 2\n") ] := by
  constructor <;> decide

/-- C7 (the code departs from the claim): decoding the example frame of the
source comment gives every field the value of its key, and the announcement
its prefixes, but the next hop stays empty: the tag of `NextHop` is not a
well-formed `key:"value"` pair, so the field answers to the key `NextHop`,
which `next_hop` does not match even up to case. -/
theorem example_frame_next_hop_lost :
    unmarshalRisLiveMessage exampleFrame RisLiveMessage.zero = some (exampleDecoded, none) ∧
      exampleDecoded.Data.Announcements = [⟨[], [ascii "1.1.249.0/24"]⟩] ∧
      jsonField ⟨ascii "NextHop", ascii "json:next_hop"⟩ = some ⟨ascii "NextHop", false⟩ ∧
      jsonField ⟨ascii "PeerAsn", ascii "json:\"peer_asn\""⟩ = some ⟨ascii "peer_asn", false⟩ := by
  refine ⟨by decide, by decide, by decide, by decide⟩

/-- C3 (as the code has it): the ping message serialized in `main` is
`{"type":"ping","data":null}`; the nil `Data` pointer is encoded as `null`
because the tag of `Data` has no `omitempty`. -/
theorem pingstr_eq : pingstr = ascii "\x7b\"type\":\"ping\",\"data\":null\x7d" := by decide

/-- C3 as stated fails: the serialized ping is not `{"type":"ping"}`. -/
theorem pingstr_ne_claimed : pingstr ≠ ascii "\x7b\"type\":\"ping\"\x7d" := by decide

/-- C4 as stated fails: for the filter of the program (empty host) the message
sent has no `host` key. -/
theorem out1_ne_claimed :
    out1 ≠ ascii "\x7b\"type\":\"ris_subscribe\",\"data\":\x7b\"host\":\"\",\"prefix\":\"0.0.0.0/0\"\x7d\x7d" := by
  decide

/-- C10 as stated fails: when the write of the close frame fails, the
interrupt ends with the error line and neither of the two final lines. -/
theorem interrupt_close_write_fails :
    mainLoop [.interrupt (some (ascii "broken pipe")) true] =
        ([ sigintLine,
           .writeMessage CloseMessage [3, 232] (some (ascii "broken pipe")),
           .logPrintln [.str (ascii "Error during closing websocket: "),
             .ioError (ascii "broken pipe")] ], true) ∧
      closedLine ∉ (mainLoop [.interrupt (some (ascii "broken pipe")) true]).1 ∧
      timeoutLine ∉ (mainLoop [.interrupt (some (ascii "broken pipe")) true]).1 := by
  decide

theorem mainLoop_timers (n : Nat) (rest : List MainEvent) :
    mainLoop (List.replicate n (.timer none) ++ rest) =
      ((List.replicate n (.writeMessage TextMessage pingstr none)) ++ (mainLoop rest).1,
        (mainLoop rest).2) := by
  induction n with
  | zero => simp
  | succ k ih =>
    simp only [List.replicate_succ, List.cons_append, mainLoop, mainStep]
    simp [ih]

/-- C10 (as the code has it): an interrupt received while the loop is running
(after any number of keepalive ticks whose write succeeded) makes `main` log
the SIGINT line, write a normal-closure close frame, and return; when that
write fails the last line is the write error, and when it succeeds the last
line is `Receiver channel closed, exiting` if `done` is received before the
one-second timer and the timeout line otherwise. -/
theorem mainLoop_interrupt (n : Nat) (writeErr : Option IOError) (doneFirst : Bool)
    (rest : List MainEvent) :
    mainLoop (List.replicate n (.timer none) ++ .interrupt writeErr doneFirst :: rest) =
      (List.replicate n (.writeMessage TextMessage pingstr none) ++
        [ sigintLine,
          .writeMessage CloseMessage (formatCloseMessage CloseNormalClosure []) writeErr,
          match writeErr with
          | some err =>
            .logPrintln [.str (ascii "Error during closing websocket: "), .ioError err]
          | none => if doneFirst then closedLine else timeoutLine ], true) := by
  rw [mainLoop_timers]
  cases writeErr <;> simp [mainLoop, mainStep, sigintLine, closedLine, timeoutLine, ascii]

/-- A multi-byte encoding accepted by `decodeRune` is re-encoded to the same
bytes, and decoding looks at nothing after them. -/
theorem decodeRune_multibyte (b : Nat) (t : GoString) (hb : 0x80 ≤ b)
    (hsize : (decodeRune (b :: t)).2 ≠ 1) :
    ∃ p : GoString, p.length = (decodeRune (b :: t)).2 - 1 ∧ t = p ++ t.drop p.length ∧
      encodeRune (decodeRune (b :: t)).1 = b :: p ∧
      (∀ y, decodeRune (b :: (p ++ y)) = decodeRune (b :: t)) ∧
      (∀ c ∈ p, 0x80 ≤ c) := by
  unfold decodeRune at hsize ⊢
  have h1 : ¬ b < 0x80 := by omega
  simp only [h1, if_false] at hsize ⊢
  by_cases h2 : b < 0xC2
  · simp [h2] at hsize
  simp only [h2, if_false] at hsize ⊢
  by_cases h3 : b < 0xE0
  · simp only [h3, if_true] at hsize ⊢
    cases t with
    | nil => simp at hsize
    | cons b1 t1 =>
      simp only at hsize ⊢
      by_cases hr : 0x80 ≤ b1 ∧ b1 ≤ 0xBF
      · simp only [hr, and_self, if_true] at hsize ⊢
        refine ⟨[b1], rfl, by simp, ?_, ?_, ?_⟩
        · unfold encodeRune
          have : ¬ (b % 32 * 64 + b1 % 64 < 0x80) := by omega
          have h' : b % 32 * 64 + b1 % 64 < 0x800 := by omega
          simp only [this, h', if_false, if_true]
          congr 1
          · omega
          · congr 1; omega
        · intro y; simp [hr]
        · intro c hc; simp at hc; omega
      · simp [hr] at hsize
  simp only [h3, if_false] at hsize ⊢
  by_cases h4 : b < 0xF0
  · simp only [h4, if_true] at hsize ⊢
    match t, hsize with
    | [], hsize => simp at hsize
    | [_], hsize => simp at hsize
    | b1 :: b2 :: t2, hsize =>
      simp only at hsize ⊢
      by_cases hr : (if b = 0xE0 then 0xA0 else 0x80) ≤ b1 ∧
          b1 ≤ (if b = 0xED then 0x9F else 0xBF) ∧ 0x80 ≤ b2 ∧ b2 ≤ 0xBF
      · simp only [hr, and_self, if_true] at hsize ⊢
        obtain ⟨hr1, hr2, hr3, hr4⟩ := hr
        refine ⟨[b1, b2], rfl, by simp, ?_, ?_, ?_⟩
        · unfold encodeRune
          have hlo : 0x80 ≤ b1 := by split at hr1 <;> omega
          have hhi : b1 ≤ 0xBF := by split at hr2 <;> omega
          have e1 : ¬ (b % 16 * 4096 + b1 % 64 * 64 + b2 % 64 < 0x80) := by
            split at hr1 <;> omega
          have e2 : ¬ (b % 16 * 4096 + b1 % 64 * 64 + b2 % 64 < 0x800) := by
            split at hr1 <;> omega
          have e3 : ¬ ((0xD800 ≤ b % 16 * 4096 + b1 % 64 * 64 + b2 % 64 ∧
              b % 16 * 4096 + b1 % 64 * 64 + b2 % 64 ≤ 0xDFFF) ∨
              0x10FFFF < b % 16 * 4096 + b1 % 64 * 64 + b2 % 64) := by
            split at hr2 <;> omega
          have e4 : b % 16 * 4096 + b1 % 64 * 64 + b2 % 64 < 0x10000 := by omega
          simp only [e1, e2, e3, e4, if_false, if_true]
          congr 1
          · omega
          · congr 1
            · omega
            · congr 1; omega
        · intro y; simp [hr1, hr2, hr3, hr4]
        · intro c hc
          have hlo : 0x80 ≤ b1 := by split at hr1 <;> omega
          simp at hc; omega
      · simp [hr] at hsize
  simp only [h4, if_false] at hsize ⊢
  by_cases h5 : b < 0xF5
  · simp only [h5, if_true] at hsize ⊢
    match t, hsize with
    | [], hsize => simp at hsize
    | [_], hsize => simp at hsize
    | [_, _], hsize => simp at hsize
    | b1 :: b2 :: b3 :: t3, hsize =>
      simp only at hsize ⊢
      by_cases hr : (if b = 0xF0 then 0x90 else 0x80) ≤ b1 ∧
          b1 ≤ (if b = 0xF4 then 0x8F else 0xBF) ∧ 0x80 ≤ b2 ∧ b2 ≤ 0xBF ∧
          0x80 ≤ b3 ∧ b3 ≤ 0xBF
      · simp only [hr, and_self, if_true] at hsize ⊢
        obtain ⟨hr1, hr2, hr3, hr4, hr5, hr6⟩ := hr
        refine ⟨[b1, b2, b3], rfl, by simp, ?_, ?_, ?_⟩
        · unfold encodeRune
          have hlo : 0x80 ≤ b1 := by split at hr1 <;> omega
          have hhi : b1 ≤ 0xBF := by split at hr2 <;> omega
          have e1 : ¬ (b % 8 * 262144 + b1 % 64 * 4096 + b2 % 64 * 64 + b3 % 64 < 0x80) := by
            split at hr1 <;> omega
          have e2 : ¬ (b % 8 * 262144 + b1 % 64 * 4096 + b2 % 64 * 64 + b3 % 64 < 0x800) := by
            split at hr1 <;> omega
          have e4 : ¬ (b % 8 * 262144 + b1 % 64 * 4096 + b2 % 64 * 64 + b3 % 64 < 0x10000) := by
            split at hr1 <;> omega
          have e3 : ¬ ((0xD800 ≤ b % 8 * 262144 + b1 % 64 * 4096 + b2 % 64 * 64 + b3 % 64 ∧
              b % 8 * 262144 + b1 % 64 * 4096 + b2 % 64 * 64 + b3 % 64 ≤ 0xDFFF) ∨
              0x10FFFF < b % 8 * 262144 + b1 % 64 * 4096 + b2 % 64 * 64 + b3 % 64) := by
            split at hr2 <;> omega
          simp only [e1, e2, e3, e4, if_false]
          congr 1
          · omega
          · congr 1
            · omega
            · congr 1
              · omega
              · congr 1; omega
        · intro y; simp [hr1, hr2, hr3, hr4, hr5, hr6]
        · intro c hc
          have hlo : 0x80 ≤ b1 := by split at hr1 <;> omega
          simp at hc; omega
      · simp [hr] at hsize
  · simp [h5] at hsize

theorem hexVal_hexDigit (n : Nat) (h : n < 16) : hexVal (hexDigit n) = some n := by
  unfold hexDigit hexVal
  by_cases h1 : n < 10
  · have a : 48 ≤ 48 + n ∧ 48 + n ≤ 57 := by omega
    simp [h1, a]
  · have a : ¬ (48 ≤ 87 + n ∧ 87 + n ≤ 57) := by omega
    have b : 97 ≤ 87 + n ∧ 87 + n ≤ 102 := by omega
    simp only [h1, if_false, a, b, if_true]
    simp

theorem scanString_escapeByte (b : Nat) (hb : b < 0x80) (fs : Nat) (y : GoString) :
    scanString (fs + 1) (escapeByte b ++ y) =
      (scanString fs y).map (fun sr => (b :: sr.1, sr.2)) := by
  unfold escapeByte
  by_cases hs : htmlSafe b = true
  · simp only [hs, if_true, List.singleton_append]
    simp only [htmlSafe, decide_eq_true_eq] at hs
    simp only [scanString]
    have a1 : ¬ b = 34 := by omega
    have a2 : ¬ b = 92 := by omega
    have a3 : ¬ b < 32 := by omega
    have a4 : b < 128 := by omega
    simp only [a1, a2, a3, a4, if_false, if_true]
  · simp only [hs, if_false, Bool.false_eq_true]
    by_cases c1 : b = 92 ∨ b = 34
    · simp only [c1, if_true]
      rcases c1 with rfl | rfl <;> simp [scanString]
    simp only [c1, if_false]
    by_cases c2 : b = 8
    · subst c2; simp [scanString]
    simp only [c2, if_false]
    by_cases c3 : b = 12
    · subst c3; simp [scanString]
    simp only [c3, if_false]
    by_cases c4 : b = 10
    · subst c4; simp [scanString]
    simp only [c4, if_false]
    by_cases c5 : b = 13
    · subst c5; simp [scanString]
    simp only [c5, if_false]
    by_cases c6 : b = 9
    · subst c6; simp [scanString]
    simp only [c6, if_false]
    have g : getu4 (92 :: 117 :: 48 :: 48 :: hexDigit (b / 16) :: hexDigit (b % 16) :: y) =
        some b := by
      simp only [getu4]
      have z : hexVal 48 = some 0 := by decide
      rw [z, hexVal_hexDigit _ (by omega), hexVal_hexDigit _ (by omega)]
      simp only
      congr 1
      omega
    simp only [List.cons_append, List.nil_append]
    simp only [scanString]
    simp only [g]
    have r1 : ¬ (0xD800 ≤ b ∧ b < 0xE000) := by omega
    have r2 : encodeRune b = [b] := by simp [encodeRune, hb]
    simp [r1, r2]

theorem escapeByte_length (b : Nat) : 1 ≤ (escapeByte b).length := by
  unfold escapeByte
  repeat' split
  all_goals simp

theorem scanString_u4 (fs a1 a2 a3 a4 rr : Nat) (y : GoString)
    (hg : getu4 (92 :: 117 :: a1 :: a2 :: a3 :: a4 :: y) = some rr)
    (hns : ¬ (0xD800 ≤ rr ∧ rr < 0xE000)) :
    scanString (fs + 1) (92 :: 117 :: a1 :: a2 :: a3 :: a4 :: y) =
      (scanString fs y).map (fun sr => (encodeRune rr ++ sr.1, sr.2)) := by
  simp only [scanString]
  simp only [hg]
  simp [hns]

/-- Reading back what `appendStringBody` wrote for a valid UTF-8 string gives
the string, whatever follows the closing quote. -/
theorem scanString_appendStringBody (n : Nat) :
    ∀ (s : GoString), s.length ≤ n → ∀ (fv fa fs : Nat), s.length ≤ fv → s.length ≤ fa →
      (appendStringBody fa s).length < fs → utf8ValidAux fv s = true →
      ∀ rest, scanString fs (appendStringBody fa s ++ 34 :: rest) = .ok (s, rest) := by
  induction n with
  | zero =>
    intro s hs fv fa fs _ _ hfs _ rest
    have : s = [] := List.length_eq_zero.mp (by omega)
    subst this
    cases fs with
    | zero => simp at hfs
    | succ k => cases fa <;> simp [appendStringBody, scanString]
  | succ n ih =>
    intro s hs fv fa fs hfv hfa hfs hval rest
    cases s with
    | nil =>
      cases fs with
      | zero => simp at hfs
      | succ k => cases fa <;> simp [appendStringBody, scanString]
    | cons b t =>
      simp only [List.length_cons] at hs hfv hfa
      obtain ⟨fv', rfl⟩ : ∃ k, fv = k + 1 := ⟨fv - 1, by omega⟩
      obtain ⟨fa', rfl⟩ : ∃ k, fa = k + 1 := ⟨fa - 1, by omega⟩
      obtain ⟨fs', rfl⟩ : ∃ k, fs = k + 1 := ⟨fs - 1, by omega⟩
      simp only [utf8ValidAux] at hval
      simp only [appendStringBody] at hfs ⊢
      by_cases hb : b < 0x80
      · simp only [hb, if_true] at hval hfs ⊢
        rw [List.append_assoc, scanString_escapeByte b hb]
        simp only [List.length_append] at hfs
        have := escapeByte_length b
        rw [ih t (by omega) fv' fa' fs' (by omega) (by omega) (by omega) hval rest]
        rfl
      · simp only [hb, if_false] at hval hfs ⊢
        have hb' : 0x80 ≤ b := by omega
        have hsz : (decodeRune (b :: t)).2 ≠ 1 := by
          intro h1
          simp [h1] at hval
        simp only [hsz, if_false] at hval
        obtain ⟨p, hpl, hpt, henc, hdec, hp80⟩ := decodeRune_multibyte b t hb' hsz
        rcases hd : decodeRune (b :: t) with ⟨c, size⟩
        rw [hd] at hsz hval hpl henc
        simp only at hsz hval hpl henc
        simp only [hd] at hfs ⊢
        have hc1 : ¬ (c = RuneError ∧ size = 1) := fun h => hsz h.2
        simp only [hc1, if_false] at hfs ⊢
        have hdrop : List.drop (size - 1) t = List.drop p.length t := by rw [hpl]
        have htlen : t.length = p.length + (List.drop p.length t).length := by
          conv_lhs => rw [hpt]
          simp
        have htake : List.take size (b :: t) = b :: p := by
          have hs1 : size = p.length + 1 := by
            have := hpl
            have h2 : size ≠ 0 := by
              intro h0
              have := congrArg Prod.snd hd
              simp only at this
              rw [h0] at this
              unfold decodeRune at this
              simp only [hb, if_false] at this
              repeat' split at this
              all_goals simp at this
            omega
          rw [hs1, List.take_succ_cons]
          congr 1
          conv_lhs => rw [hpt]
          simp
        have hrec : ∀ fs2, (appendStringBody fa' (List.drop (size - 1) t)).length < fs2 →
            scanString fs2 (appendStringBody fa' (List.drop (size - 1) t) ++ 34 :: rest) =
              .ok (List.drop (size - 1) t, rest) := by
          intro fs2 h2
          apply ih _ _ fv' fa' fs2 _ _ h2 hval
          · rw [hdrop]; omega
          · rw [hdrop]; omega
          · rw [hdrop]; omega
        by_cases h28 : c = 0x2028 ∨ c = 0x2029
        · simp only [h28, if_true] at hfs ⊢
          have ha : ascii "\\u202" = [92, 117, 50, 48, 50] := by decide
          rw [ha] at hfs ⊢
          simp only [List.cons_append, List.nil_append, List.length_cons, List.length_append,
            List.length_nil] at hfs ⊢
          have hx : hexDigit (c % 16) = 56 ∨ hexDigit (c % 16) = 57 := by
            rcases h28 with rfl | rfl <;> simp [hexDigit]
          have g : getu4 (92 :: 117 :: 50 :: 48 :: 50 :: hexDigit (c % 16) ::
              (appendStringBody fa' (List.drop (size - 1) t) ++ 34 :: rest)) = some c := by
            rcases h28 with rfl | rfl <;> simp [getu4, hexDigit, hexVal]
          have r1 : ¬ (0xD800 ≤ c ∧ c < 0xE000) := by rcases h28 with rfl | rfl <;> omega
          rw [scanString_u4 _ _ _ _ _ _ _ g r1]
          rw [hrec fs' (by omega), henc]
          simp only [Except.map]
          rw [hdrop]
          congr 2
          simp only [List.cons_append]
          congr 1
          exact hpt.symm
        · simp only [h28, if_false] at hfs ⊢
          rw [htake] at hfs ⊢
          simp only [List.cons_append, List.length_cons, List.length_append] at hfs ⊢
          simp only [scanString]
          have a1 : ¬ b = 34 := by omega
          have a2 : ¬ b = 92 := by omega
          have a3 : ¬ b < 32 := by omega
          have a4 : ¬ b < 128 := by omega
          simp only [a1, a2, a3, a4, if_false]
          rw [List.append_assoc, hdec, hd]
          simp only
          have hdr : List.drop (size - 1)
              (p ++ (appendStringBody fa' (List.drop (size - 1) t) ++ 34 :: rest)) =
              appendStringBody fa' (List.drop (size - 1) t) ++ 34 :: rest := by
            rw [← hpl]; simp
          rw [hdr, hrec fs' (by omega), henc]
          simp only [Except.map]
          rw [hdrop]
          congr 2
          simp only [List.cons_append]
          congr 1
          exact hpt.symm

theorem scanString_quoted (s : GoString) (hval : utf8Valid s = true) (rest : GoString) :
    scanString ((appendStringBody s.length s ++ 34 :: rest).length + 1)
      (appendStringBody s.length s ++ 34 :: rest) = .ok (s, rest) :=
  scanString_appendStringBody s.length s (le_refl _) s.length s.length _ (le_refl _) (le_refl _)
    (by simp only [List.length_append, List.length_cons]; omega) hval rest

theorem jsonQuote_append (s rest : GoString) :
    jsonQuote s ++ rest = 34 :: (appendStringBody s.length s ++ 34 :: rest) := by
  simp [jsonQuote]

theorem skipSpace_cons (c : Nat) (x : GoString) (h : c ≠ 32 ∧ c ≠ 9 ∧ c ≠ 13 ∧ c ≠ 10) :
    skipSpace (c :: x) = c :: x := by
  simp [skipSpace, h]

/-- A quoted valid string is read as a string value. -/
theorem parseValue_string (fuel depth : Nat) (s rest : GoString) (hval : utf8Valid s = true) :
    parseValue (fuel + 1) depth (jsonQuote s ++ rest) = .ok (.string s, rest) := by
  rw [jsonQuote_append, parseValue]
  rw [skipSpace_cons _ _ (by decide)]
  simp only [scanString_quoted s hval rest]
  simp

/-- An object whose first member starts with a quote is read by reading its
members. -/
theorem parseValue_object (fuel depth : Nat) (x : GoString) (hd : depth < maxNestingDepth) :
    parseValue (fuel + 1) depth (123 :: 34 :: x) =
      match parseMembers fuel (depth + 1) (34 :: x) with
      | .ok (ms, r) => .ok (.object ms, r)
      | .error e => .error e := by
  rw [parseValue]
  rw [skipSpace_cons _ _ (by decide)]
  have : ¬ maxNestingDepth < depth + 1 := by omega
  simp only [this, if_false, if_true]
  rewrite [skipSpace_cons _ _ (by decide)]
  rfl

/-- One member `"key":value` followed by a comma and further members. -/
theorem parseMembers_more (fuel depth : Nat) (key r2 r4 r5 : GoString) (v : JValue)
    (ms : List (GoString × JValue)) (hkey : utf8Valid key = true)
    (hv : parseValue fuel depth r2 = .ok (v, 44 :: r4))
    (hms : parseMembers fuel depth r4 = .ok (ms, r5)) :
    parseMembers (fuel + 1) depth (jsonQuote key ++ 58 :: r2) = .ok ((key, v) :: ms, r5) := by
  rw [jsonQuote_append, parseMembers]
  rw [skipSpace_cons _ _ (by decide)]
  simp only [scanString_quoted key hkey]
  rw [skipSpace_cons _ _ (by decide)]
  simp only [hv]
  rw [skipSpace_cons _ _ (by decide)]
  simp only [hms]

/-- The last member `"key":value` of an object, followed by the closing brace. -/
theorem parseMembers_last (fuel depth : Nat) (key r2 r4 : GoString) (v : JValue)
    (hkey : utf8Valid key = true)
    (hv : parseValue fuel depth r2 = .ok (v, 125 :: r4)) :
    parseMembers (fuel + 1) depth (jsonQuote key ++ 58 :: r2) = .ok ([(key, v)], r4) := by
  rw [jsonQuote_append, parseMembers]
  rw [skipSpace_cons _ _ (by decide)]
  simp only [scanString_quoted key hkey]
  rw [skipSpace_cons _ _ (by decide)]
  simp only [hv]
  rw [skipSpace_cons _ _ (by decide)]

theorem utf8Valid_keys :
    utf8Valid (ascii "type") = true ∧ utf8Valid (ascii "data") = true ∧
      utf8Valid (ascii "host") = true ∧ utf8Valid (ascii "prefix") = true ∧
      utf8Valid (ascii "ris_subscribe") = true := by decide

theorem subscription_text (h p : GoString) (hne : p ≠ []) :
    marshalRisMessage (subscription h p) =
      123 :: (jsonQuote (ascii "type") ++ 58 :: (jsonQuote (ascii "ris_subscribe") ++ 44 ::
        (jsonQuote (ascii "data") ++ 58 :: 123 ::
          ((if h = [] then [] else jsonQuote (ascii "host") ++ 58 :: (jsonQuote h ++ [44])) ++
            (jsonQuote (ascii "prefix") ++ 58 :: (jsonQuote p ++ [125, 125])))))) := by
  rw [marshal_subscription_text]
  have e1 : ascii "\x7b\"type\":\"ris_subscribe\",\"data\":\x7b" =
      123 :: (jsonQuote (ascii "type") ++ 58 :: (jsonQuote (ascii "ris_subscribe") ++ 44 ::
        (jsonQuote (ascii "data") ++ [58, 123]))) := by decide
  have e2 : ascii "\"host\":" = jsonQuote (ascii "host") ++ [58] := by decide
  have e3 : ascii "\"prefix\":" = jsonQuote (ascii "prefix") ++ [58] := by decide
  have e4 : ascii "\x7d\x7d" = [125, 125] := by decide
  have e5 : ascii "," = [44] := by decide
  rw [e1, e2, e3, e4, e5]
  by_cases hh : h = []
  · simp [hh, hne, stringsJoin]
  · simp [hh, hne, stringsJoin]

theorem parse_data_members (k depth : Nat) (h p rest : GoString)
    (hh : utf8Valid h = true) (hp : utf8Valid p = true) :
    parseMembers (k + 3) depth
        ((if h = [] then [] else jsonQuote (ascii "host") ++ 58 :: (jsonQuote h ++ [44])) ++
          (jsonQuote (ascii "prefix") ++ 58 :: (jsonQuote p ++ 125 :: rest))) =
      .ok (dataMembers h p, rest) := by
  obtain ⟨_, _, kh, kp, _⟩ := utf8Valid_keys
  have hlast : ∀ f, parseMembers (f + 2) depth
      (jsonQuote (ascii "prefix") ++ 58 :: (jsonQuote p ++ 125 :: rest)) =
      .ok ([(ascii "prefix", JValue.string p)], rest) := fun f =>
    parseMembers_last (f + 1) depth _ _ _ _ kp (parseValue_string f depth p _ hp)
  by_cases he : h = []
  · simp only [he, if_true, List.nil_append, dataMembers]
    exact hlast (k + 1)
  · simp only [he, if_false, dataMembers, List.append_assoc, List.cons_append,
      List.singleton_append, List.nil_append]
    exact parseMembers_more (k + 2) depth _ _ _ _ _ _ kh
      (parseValue_string (k + 1) depth h _ hh) (hlast k)

theorem parse_subscription (k : Nat) (h p : GoString)
    (hh : utf8Valid h = true) (hp : utf8Valid p = true) (hne : p ≠ []) :
    parseValue (k + 7) 0 (marshalRisMessage (subscription h p)) =
      .ok (.object [ (ascii "type", .string (ascii "ris_subscribe")),
                     (ascii "data", .object (dataMembers h p)) ], []) := by
  obtain ⟨kt, kd, _, kp, ks⟩ := utf8Valid_keys
  rw [subscription_text h p hne]
  have hq : ∀ x : GoString, jsonQuote (ascii "type") ++ x =
      34 :: (appendStringBody (ascii "type").length (ascii "type") ++ 34 :: x) :=
    fun x => jsonQuote_append _ x
  have hdataobj : parseValue (k + 4) 1 (123 ::
      ((if h = [] then [] else jsonQuote (ascii "host") ++ 58 :: (jsonQuote h ++ [44])) ++
        (jsonQuote (ascii "prefix") ++ 58 :: (jsonQuote p ++ [125, 125])))) =
      .ok (.object (dataMembers h p), [125]) := by
    have hm := parse_data_members k 2 h p [125] hh hp
    have hshape : ∃ x, ((if h = [] then [] else
        jsonQuote (ascii "host") ++ 58 :: (jsonQuote h ++ [44])) ++
        (jsonQuote (ascii "prefix") ++ 58 :: (jsonQuote p ++ [125, 125]))) = 34 :: x := by
      by_cases he : h = []
      · exact ⟨_, by simp only [he, if_true, List.nil_append]; exact jsonQuote_append _ _⟩
      · simp only [he, if_false]
        rw [jsonQuote_append, List.cons_append]
        exact ⟨_, rfl⟩
    obtain ⟨x, hx⟩ := hshape
    rw [hx] at hm ⊢
    rw [parseValue_object _ _ _ (by decide), hm]
  have hdata : parseMembers (k + 5) 1 (jsonQuote (ascii "data") ++ 58 :: 123 ::
      ((if h = [] then [] else jsonQuote (ascii "host") ++ 58 :: (jsonQuote h ++ [44])) ++
        (jsonQuote (ascii "prefix") ++ 58 :: (jsonQuote p ++ [125, 125])))) =
      .ok ([(ascii "data", .object (dataMembers h p))], []) :=
    parseMembers_last (k + 4) 1 _ _ _ _ kd hdataobj
  have htop := parseMembers_more (k + 5) 1 (ascii "type") _ _ _ _ _ kt
    (parseValue_string (k + 4) 1 (ascii "ris_subscribe") _ ks) hdata
  rw [hq] at htop ⊢
  rw [parseValue_object _ _ _ (by decide), htop]

theorem decode_subscription_tree (h p : GoString) :
    decodeStruct RisMessage.table
        (.object [ (ascii "type", .string (ascii "ris_subscribe")),
                   (ascii "data", .object (dataMembers h p)) ]) RisMessage.zero =
      (subscription h p, none) := by
  have f1 : findField RisMessage.table (ascii "type") = some (fun v m =>
      let (x, e) := decodeString v m.Typ
      ({ m with Typ := x }, e)) := by rfl
  have f2 : findField RisMessage.table (ascii "data") = some (fun v m =>
      let (x, e) := decodeDataPointer v m.Data
      ({ m with Data := x }, e)) := by rfl
  have f3 : findField RisMessageData.table (ascii "host") = some (fun v d =>
      let (x, e) := decodeString v d.Host
      ({ d with Host := x }, e)) := by rfl
  have f4 : findField RisMessageData.table (ascii "prefix") = some (fun v d =>
      let (x, e) := decodeString v d.Prefix
      ({ d with Prefix := x }, e)) := by rfl
  by_cases he : h = []
  · subst he
    simp [decodeStruct, decodeMembers, f1, f2, f3, f4, dataMembers, decodeDataPointer,
      decodeString, RisMessage.zero, RisMessageData.zero, subscription]
  · simp [decodeStruct, decodeMembers, f1, f2, f3, f4, dataMembers, decodeDataPointer,
      decodeString, RisMessage.zero, RisMessageData.zero, subscription, he]

/-- C5 (as the code has it): for every host `h` and every non-empty prefix
filter `p` that are valid UTF-8 (in particular `h = ""`, `p = "0.0.0.0/0"`),
the serialization of `RisMessage{"ris_subscribe", &RisMessageData{h, p}}` ends
with the `prefix` member holding the JSON string of `p`, and decoding that
serialization into a zero `RisMessage` returns no error and gives back type
`ris_subscribe`, host `h` and prefix `p`. -/
theorem subscription_round_trip (h p : GoString)
    (hh : utf8Valid h = true) (hp : utf8Valid p = true) (hne : p ≠ []) :
    (∃ front, marshalRisMessage (subscription h p) =
        front ++ ascii "\"prefix\":" ++ jsonQuote p ++ ascii "\x7d\x7d") ∧
      unmarshalRisMessage (marshalRisMessage (subscription h p)) RisMessage.zero =
        some (subscription h p, none) := by
  constructor
  · rw [marshal_subscription_text]
    by_cases he : h = []
    · exact ⟨ascii "\x7b\"type\":\"ris_subscribe\",\"data\":\x7b", by
        simp [he, hne, stringsJoin]⟩
    · exact ⟨ascii "\x7b\"type\":\"ris_subscribe\",\"data\":\x7b" ++
        (ascii "\"host\":" ++ jsonQuote h) ++ ascii ",", by simp [he, hne, stringsJoin]⟩
  · have hlen : 6 ≤ (marshalRisMessage (subscription h p)).length := by
      rw [subscription_text h p hne]
      simp only [List.length_cons, List.length_append, jsonQuote]
      omega
    obtain ⟨k, hk⟩ : ∃ k, 2 * (marshalRisMessage (subscription h p)).length + 2 = k + 7 :=
      ⟨2 * (marshalRisMessage (subscription h p)).length - 5, by omega⟩
    unfold unmarshalRisMessage parseJSON
    rw [hk, parse_subscription k h p hh hp hne]
    simp only [skipSpace, if_true]
    rw [decode_subscription_tree]

theorem subscription_round_trip_witness :
    utf8Valid (ascii "") = true ∧ utf8Valid (ascii "0.0.0.0/0") = true ∧
      ascii "0.0.0.0/0" ≠ [] ∧
      unmarshalRisMessage out1 RisMessage.zero = some (subscription1, none) :=
  ⟨by decide, by decide, by decide,
    (subscription_round_trip (ascii "") (ascii "0.0.0.0/0") (by decide) (by decide)
      (by decide)).2⟩

/-- C5 as stated fails: a host that is not valid UTF-8 (the single byte 0xff)
comes back as the three bytes of U+FFFD. -/
theorem subscription_round_trip_invalid_utf8 :
    unmarshalRisMessage (marshalRisMessage (subscription [0xff] (ascii "0.0.0.0/0")))
        RisMessage.zero =
      some (subscription [0xef, 0xbf, 0xbd] (ascii "0.0.0.0/0"), none) ∧
    unmarshalRisMessage (marshalRisMessage (subscription [0xff] (ascii "0.0.0.0/0")))
        RisMessage.zero ≠
      some (subscription [0xff] (ascii "0.0.0.0/0"), none) := by
  decide

theorem Progress.map {α β : Type} (g : α × GoString → β × GoString)
    (hg : ∀ x, (g x).2 = x.2) (res : Except ParseFail (α × GoString))
    (n m : Nat) (h : Progress res n) (hnm : n ≤ m) : Progress (res.map g) m := by
  cases res with
  | error e => exact h
  | ok v =>
    have := hg v
    obtain ⟨a, r⟩ := v
    simp only [Progress, Except.map] at h ⊢
    rw [this]
    simp only
    omega

theorem scanString_progress (fuel : Nat) :
    ∀ s : GoString, s.length < fuel → Progress (scanString fuel s) s.length := by
  induction fuel with
  | zero => intro s h; omega
  | succ k ih =>
    intro s h
    cases s with
    | nil => simp [scanString, Progress]
    | cons c rest =>
      simp only [List.length_cons] at h ⊢
      have step : ∀ (r : GoString) (g : GoString × GoString → GoString × GoString),
          (∀ x, (g x).2 = x.2) → r.length ≤ rest.length →
          Progress ((scanString k r).map g) (rest.length + 1) :=
        fun r g hg hr => Progress.map g hg _ r.length _ (ih r (by omega)) (by omega)
      have hs := scanString.eq_def (k + 1) (c :: rest)
      dsimp only at hs
      rw [hs]
      clear hs
      by_cases h34 : c = 34
      · rw [if_pos h34]; simp [Progress]
      rw [if_neg h34]
      by_cases h92 : c = 92
      · rw [if_pos h92]
        cases rest with
        | nil => simp [Progress]
        | cons e rest1 =>
          have hr1 : rest1.length ≤ (e :: rest1).length := by simp
          have hd4 : (List.drop 4 rest1).length ≤ (e :: rest1).length := by simp; omega
          have hd6 : (List.drop 6 (List.drop 4 rest1)).length ≤ (e :: rest1).length := by
            simp; omega
          dsimp only
          by_cases e1 : e = 34 ∨ e = 92 ∨ e = 47
          · rw [if_pos e1]; exact step rest1 _ (fun _ => rfl) hr1
          rw [if_neg e1]
          by_cases e2 : e = 98
          · rw [if_pos e2]; exact step rest1 _ (fun _ => rfl) hr1
          rw [if_neg e2]
          by_cases e3 : e = 102
          · rw [if_pos e3]; exact step rest1 _ (fun _ => rfl) hr1
          rw [if_neg e3]
          by_cases e4 : e = 110
          · rw [if_pos e4]; exact step rest1 _ (fun _ => rfl) hr1
          rw [if_neg e4]
          by_cases e5 : e = 114
          · rw [if_pos e5]; exact step rest1 _ (fun _ => rfl) hr1
          rw [if_neg e5]
          by_cases e6 : e = 116
          · rw [if_pos e6]; exact step rest1 _ (fun _ => rfl) hr1
          rw [if_neg e6]
          by_cases e7 : e = 117
          · rw [if_pos e7]
            cases getu4 (c :: e :: rest1) with
            | none => simp [Progress]
            | some rr =>
              dsimp only
              by_cases hsur : 55296 ≤ rr ∧ rr < 57344
              · rw [if_pos hsur]
                cases getu4 (List.drop 4 rest1) with
                | none => exact step _ _ (fun _ => rfl) hd4
                | some rr1 =>
                  dsimp only
                  by_cases hpair : rr < 56320 ∧ 56320 ≤ rr1 ∧ rr1 < 57344
                  · rw [if_pos hpair]; exact step _ _ (fun _ => rfl) hd6
                  · rw [if_neg hpair]; exact step _ _ (fun _ => rfl) hd4
              · rw [if_neg hsur]; exact step _ _ (fun _ => rfl) hd4
          · rw [if_neg e7]; simp [Progress]
      rw [if_neg h92]
      by_cases h32 : c < 32
      · rw [if_pos h32]; simp [Progress]
      rw [if_neg h32]
      by_cases h128 : c < 128
      · rw [if_pos h128]; exact step rest _ (fun _ => rfl) (le_refl _)
      · rw [if_neg h128]
        exact step _ _ (fun _ => rfl) (by rw [List.length_drop]; omega)

theorem skipSpace_length (s : GoString) : (skipSpace s).length ≤ s.length := by
  induction s with
  | nil => simp [skipSpace]
  | cons c rest ih =>
    simp only [skipSpace]
    split
    · simp only [List.length_cons]; omega
    · exact le_refl _

theorem span_snd_length (p : Nat → Bool) (s : GoString) :
    (s.span p).2.length ≤ s.length := by
  rw [List.span_eq_take_drop]
  simp [List.dropWhile_suffix p |>.length_le]

theorem scanIntPart_progress (s l r : GoString) (h : scanIntPart s = some (l, r)) :
    r.length < s.length := by
  cases s with
  | nil => simp [scanIntPart] at h
  | cons c t =>
    simp only [scanIntPart] at h
    have := span_snd_length isDigit t
    split_ifs at h
    · simp only [Option.some.injEq, Prod.mk.injEq] at h
      rw [← h.2]; simp
    · simp only [Option.some.injEq, Prod.mk.injEq] at h
      rw [← h.2]; simp only [List.length_cons]; omega

theorem scanFracPart_progress (s l r : GoString) (h : scanFracPart s = some (l, r)) :
    r.length ≤ s.length := by
  unfold scanFracPart at h
  split at h
  · rename_i t
    have := span_snd_length isDigit t
    split_ifs at h
    simp only [Option.some.injEq, Prod.mk.injEq] at h
    rw [← h.2]; simp only [List.length_cons]; omega
  · simp only [Option.some.injEq, Prod.mk.injEq] at h
    rw [← h.2]

theorem takeSign_length (s : GoString) : (takeSign s).2.length ≤ s.length := by
  cases s with
  | nil => simp [takeSign]
  | cons x r =>
    simp only [takeSign]
    split_ifs <;> simp

theorem takeMinus_length (s : GoString) : (takeMinus s).2.length ≤ s.length := by
  unfold takeMinus
  split <;> simp

theorem scanExpPart_progress (s l r : GoString) (h : scanExpPart s = some (l, r)) :
    r.length ≤ s.length := by
  cases s with
  | nil =>
    simp only [scanExpPart, Option.some.injEq, Prod.mk.injEq] at h
    rw [← h.2]
  | cons c t =>
    simp only [scanExpPart] at h
    have h1 := takeSign_length t
    have h2 := span_snd_length isDigit (takeSign t).2
    split_ifs at h
    · simp only [Option.some.injEq, Prod.mk.injEq] at h
      rw [← h.2]
      simp only [List.length_cons]
      omega
    · simp only [Option.some.injEq, Prod.mk.injEq] at h
      rw [← h.2]

theorem scanNumber_progress (s l r : GoString) (h : scanNumber s = some (l, r)) :
    r.length < s.length := by
  unfold scanNumber at h
  have hsg := takeMinus_length s
  cases hi : scanIntPart (takeMinus s).2 with
  | none => rw [hi] at h; simp at h
  | some v1 =>
    obtain ⟨ip, s2⟩ := v1
    rw [hi] at h
    dsimp only at h
    have h1 := scanIntPart_progress _ _ _ hi
    cases hf : scanFracPart s2 with
    | none => rw [hf] at h; simp at h
    | some v2 =>
      obtain ⟨fp, s3⟩ := v2
      rw [hf] at h
      dsimp only at h
      have h2 := scanFracPart_progress _ _ _ hf
      cases he : scanExpPart s3 with
      | none => rw [he] at h; simp at h
      | some v3 =>
        obtain ⟨ep, s4⟩ := v3
        rw [he] at h
        have h3 := scanExpPart_progress _ _ _ he
        simp only [Option.some.injEq, Prod.mk.injEq] at h
        rw [← h.2]
        omega

theorem Progress.mono {α : Type} (res : Except ParseFail (α × GoString)) (n m : Nat)
    (h : Progress res n) (hnm : n ≤ m) : Progress res m := by
  cases res with
  | error e => exact h
  | ok v =>
    obtain ⟨a, r⟩ := v
    simp only [Progress] at h ⊢
    omega

theorem skipSpace_cons_length (s rest : GoString) (c : Nat) (h : skipSpace s = c :: rest) :
    rest.length + 1 ≤ s.length := by
  have := skipSpace_length s
  rw [h] at this
  simpa using this

theorem parse_progress (fuel : Nat) :
    (∀ depth s, 2 * s.length + 2 ≤ fuel → Progress (parseValue fuel depth s) s.length) ∧
    (∀ depth s, 2 * s.length + 2 ≤ fuel → Progress (parseMembers fuel depth s) s.length) ∧
    (∀ depth s, 2 * s.length + 3 ≤ fuel → Progress (parseElements fuel depth s) s.length) := by
  induction fuel with
  | zero => refine ⟨?_, ?_, ?_⟩ <;> intro depth s h <;> omega
  | succ k ih =>
    obtain ⟨ihV, ihM, ihE⟩ := ih
    refine ⟨?_, ?_, ?_⟩
    · intro depth s h
      rw [parseValue]
      cases hs : skipSpace s with
      | nil => simp [Progress]
      | cons c rest =>
        have hlen := skipSpace_cons_length s rest c hs
        dsimp only
        by_cases h123 : c = 123
        · rw [if_pos h123]
          by_cases hd : maxNestingDepth < depth + 1
          · rw [if_pos hd]; simp [Progress]
          rw [if_neg hd]
          have hsk := skipSpace_length rest
          have key : Progress (match parseMembers k (depth + 1) (skipSpace rest) with
              | .ok (ms, r) => (.ok (.object ms, r) : Except ParseFail (JValue × GoString))
              | .error e => .error e) s.length := by
            have := ihM (depth + 1) (skipSpace rest) (by omega)
            cases hm : parseMembers k (depth + 1) (skipSpace rest) with
            | error e => rw [hm] at this; exact this
            | ok v =>
              obtain ⟨ms, r⟩ := v
              rw [hm] at this
              simp only [Progress] at this ⊢
              omega
          split
          · rename_i rest1 heq
            simp only [Progress]
            rw [heq] at hsk
            simp only [List.length_cons] at hsk
            omega
          · exact key
        rw [if_neg h123]
        by_cases h91 : c = 91
        · rw [if_pos h91]
          by_cases hd : maxNestingDepth < depth + 1
          · rw [if_pos hd]; simp [Progress]
          rw [if_neg hd]
          have hsk := skipSpace_length rest
          have key : Progress (match parseElements k (depth + 1) (skipSpace rest) with
              | .ok (vs, r) => (.ok (.array vs, r) : Except ParseFail (JValue × GoString))
              | .error e => .error e) s.length := by
            have := ihE (depth + 1) (skipSpace rest) (by omega)
            cases hm : parseElements k (depth + 1) (skipSpace rest) with
            | error e => rw [hm] at this; exact this
            | ok v =>
              obtain ⟨ms, r⟩ := v
              rw [hm] at this
              simp only [Progress] at this ⊢
              omega
          split
          · rename_i rest1 heq
            simp only [Progress]
            rw [heq] at hsk
            simp only [List.length_cons] at hsk
            omega
          · exact key
        rw [if_neg h91]
        by_cases h34 : c = 34
        · rw [if_pos h34]
          have := scanString_progress (rest.length + 1) rest (by omega)
          cases hm : scanString (rest.length + 1) rest with
          | error e => rw [hm] at this; exact this
          | ok v =>
            obtain ⟨str, r⟩ := v
            rw [hm] at this
            simp only [Progress] at this ⊢
            omega
        rw [if_neg h34]
        by_cases hnum : c = 45 ∨ isDigit c = true
        · rw [if_pos hnum]
          cases hm : scanNumber (c :: rest) with
          | none => simp [Progress]
          | some v =>
            obtain ⟨lit, r⟩ := v
            have := scanNumber_progress _ _ _ hm
            simp only [Progress, List.length_cons] at this ⊢
            omega
        rw [if_neg hnum]
        split_ifs
        · simp only [Progress, List.length_drop]; omega
        · simp only [Progress, List.length_drop]; omega
        · simp only [Progress, List.length_drop]; omega
        · simp [Progress]
    · intro depth s h
      rw [parseMembers]
      split
      · rename_i rest hs
        have hlen := skipSpace_cons_length s rest 34 hs
        have hstr := scanString_progress (rest.length + 1) rest (by omega)
        cases hm : scanString (rest.length + 1) rest with
        | error e => rw [hm] at hstr; exact hstr
        | ok v =>
          obtain ⟨key, r1⟩ := v
          rw [hm] at hstr
          simp only [Progress] at hstr
          dsimp only
          split
          · rename_i r2 hs2
            have hlen2 := skipSpace_cons_length r1 r2 58 hs2
            have hv := ihV depth r2 (by omega)
            cases hpv : parseValue k depth r2 with
            | error e => rw [hpv] at hv; exact hv
            | ok v =>
              obtain ⟨val, r3⟩ := v
              rw [hpv] at hv
              simp only [Progress] at hv
              dsimp only
              split
              · rename_i r4 hs4
                have hlen4 := skipSpace_cons_length r3 r4 44 hs4
                have hm2 := ihM depth r4 (by omega)
                cases hpm : parseMembers k depth r4 with
                | error e => rw [hpm] at hm2; exact hm2
                | ok v =>
                  obtain ⟨ms, r5⟩ := v
                  rw [hpm] at hm2
                  simp only [Progress] at hm2 ⊢
                  omega
              · rename_i r4 hs4
                have hlen4 := skipSpace_cons_length r3 r4 125 hs4
                simp only [Progress]
                omega
              · simp [Progress]
          · simp [Progress]
      · simp [Progress]
    · intro depth s h
      rw [parseElements]
      have hv := ihV depth s (by omega)
      cases hpv : parseValue k depth s with
      | error e => rw [hpv] at hv; exact hv
      | ok v =>
        obtain ⟨val, r1⟩ := v
        rw [hpv] at hv
        simp only [Progress] at hv
        dsimp only
        split
        · rename_i r2 hs2
          have hlen2 := skipSpace_cons_length r1 r2 44 hs2
          have he := ihE depth r2 (by omega)
          cases hpe : parseElements k depth r2 with
          | error e => rw [hpe] at he; exact he
          | ok v =>
            obtain ⟨vs, r3⟩ := v
            rw [hpe] at he
            simp only [Progress] at he ⊢
            omega
        · rename_i r2 hs2
          have hlen2 := skipSpace_cons_length r1 r2 93 hs2
          simp only [Progress]
          omega
        · simp [Progress]

/-- The reader never runs out of fuel: every text is either a value or a
syntax error. -/
theorem parseJSON_fuel (text : GoString) : parseJSON text ≠ .error .outOfFuel := by
  unfold parseJSON
  have h := (parse_progress (2 * text.length + 2)).1 0 text (le_refl _)
  cases hp : parseValue (2 * text.length + 2) 0 text with
  | error e =>
    rw [hp] at h
    simp only [Progress] at h
    simp [h]
  | ok v =>
    obtain ⟨val, rest⟩ := v
    dsimp only
    split_ifs <;> simp

/-- The model of `json.Unmarshal` is total. -/
theorem unmarshalRisLiveMessage_total (msg : GoString) (message : RisLiveMessage) :
    ∃ r, unmarshalRisLiveMessage msg message = some r := by
  unfold unmarshalRisLiveMessage
  have h := parseJSON_fuel msg
  cases hp : parseJSON msg with
  | error e =>
    cases e with
    | syntaxError => exact ⟨_, rfl⟩
    | outOfFuel => exact absurd hp h
  | ok v => exact ⟨_, rfl⟩

/-- The loop body of `receiveHandler` gives output for every frame. -/
theorem handleFrame_total (msg : GoString) : ∃ out, handleFrame msg = some out := by
  obtain ⟨r, hr⟩ := unmarshalRisLiveMessage_total msg RisLiveMessage.zero
  exact ⟨afterUnmarshal msg r.1 r.2, by simp [handleFrame, hr]⟩

/-- The function `receiveHandler` is defined on every sequence of reads. -/
theorem receiveHandler_total (reads : List ReadResult) :
    ∃ r, receiveHandler reads = some r := by
  induction reads with
  | nil => exact ⟨_, rfl⟩
  | cons x rest ih =>
    cases x with
    | failure err => exact ⟨_, rfl⟩
    | frame msg =>
      obtain ⟨out, ho⟩ := handleFrame_total msg
      obtain ⟨r, hr⟩ := ih
      obtain ⟨outs, returned⟩ := r
      exact ⟨(out ++ outs, returned), by simp [receiveHandler, ho, hr]⟩

end RisLive
